import Mathlib

/-!
Verification development for the mods-mcp repository.

The sources embedded here are:
  * `src/programs.js` — `createProgram` (program building and triple-encoded links),
  * `src/browser.js` — `getProgramState`, `extractProgramState`, `setModuleInput`,
    `clickModuleButton` (session state reading / persisted-form decoding),
  * `src/server.js` — `findModule` and the `name:id` module-reference parsing used
    by `set_parameter` and friends,
  * `src/modules.js` — `getModuleInfo` / `extractWithRegex` (module introspection).

JavaScript strings are modelled as Lean `String`s, JavaScript objects with string
keys as insertion-ordered association lists (`objInsert` reproduces the
assign-or-overwrite semantics), and `JSON.stringify` / `JSON.parse` on the flat
string-valued objects used by the link encoding as an exact serializer/parser
pair defined below.
-/

namespace ModsMcp

/-! ## JSON string-object codec

`JSON.stringify` applied to an object whose values are strings produces
`\x7b"k":"v",...\x7d` with the standard string escaping.  `escChar` reproduces
the escaping performed by `JSON.stringify` on a single character. -/

/-- Hex digit characters as emitted by `JSON.stringify` in `\u00XX` escapes. -/
def hexDigitChar (n : Nat) : Char :=
  if n < 10 then Char.ofNat (48 + n) else Char.ofNat (87 + n)

/-- The escape sequence `JSON.stringify` emits for one character. -/
def escChar (c : Char) : List Char :=
  if c = '"' then ['\\', '"']
  else if c = '\\' then ['\\', '\\']
  else if c = '\x08' then ['\\', 'b']
  else if c = '\t' then ['\\', 't']
  else if c = '\n' then ['\\', 'n']
  else if c = '\x0c' then ['\\', 'f']
  else if c = '\r' then ['\\', 'r']
  else if c.toNat < 32 then
    ['\\', 'u', '0', '0', hexDigitChar (c.toNat / 16), hexDigitChar (c.toNat % 16)]
  else [c]

/-- Escaped character data of a whole string. -/
def escList (s : String) : List Char := s.data.flatMap escChar

/-- A JSON string literal: `"` + escaped contents + `"`. -/
def quotedChars (s : String) : List Char := '"' :: (escList s ++ ['"'])

/-- One `"key":"value"` member of a flat object. -/
def memberChars (kv : String × String) : List Char :=
  quotedChars kv.1 ++ ':' :: quotedChars kv.2

/-- Comma-separated members. -/
def membersChars : List (String × String) → List Char
  | [] => []
  | [kv] => memberChars kv
  | kv :: rest => memberChars kv ++ ',' :: membersChars rest

/-- `JSON.stringify` of an object whose values are all strings, with the keys in
insertion order — exactly the output shape of `JSON.stringify` with no spacing
argument. -/
def stringifyFlatObj (kvs : List (String × String)) : String :=
  String.mk ('{' :: (membersChars kvs ++ ['}']))

/-- Numeric value of a hex digit, as accepted in a JSON `\uXXXX` escape. -/
def hexVal (c : Char) : Option Nat :=
  if '0' ≤ c ∧ c ≤ '9' then some (c.toNat - 48)
  else if 'a' ≤ c ∧ c ≤ 'f' then some (c.toNat - 87)
  else if 'A' ≤ c ∧ c ≤ 'F' then some (c.toNat - 55)
  else none

/-- Helper: prepend a decoded character to a string-parse result. -/
def consParsed (c : Char) (o : Option (List Char × List Char)) :
    Option (List Char × List Char) :=
  o.map (fun p => (c :: p.1, p.2))

/-- Parse the contents of a JSON string literal after the opening quote,
returning the decoded characters and the remainder after the closing quote.
This is the string scanner of `JSON.parse`. -/
def parseStrChars : List Char → Option (List Char × List Char)
  | [] => none
  | c :: rest =>
    if c = '"' then some ([], rest)
    else if c = '\\' then
      match rest with
      | [] => none
      | e :: r =>
        if e = '"' then consParsed '"' (parseStrChars r)
        else if e = '\\' then consParsed '\\' (parseStrChars r)
        else if e = '/' then consParsed '/' (parseStrChars r)
        else if e = 'b' then consParsed '\x08' (parseStrChars r)
        else if e = 'f' then consParsed '\x0c' (parseStrChars r)
        else if e = 'n' then consParsed '\n' (parseStrChars r)
        else if e = 'r' then consParsed '\r' (parseStrChars r)
        else if e = 't' then consParsed '\t' (parseStrChars r)
        else if e = 'u' then
          match r with
          | a :: b :: c2 :: d :: r2 =>
            match hexVal a, hexVal b, hexVal c2, hexVal d with
            | some x, some y, some z, some w =>
              consParsed (Char.ofNat (((x * 16 + y) * 16 + z) * 16 + w)) (parseStrChars r2)
            | _, _, _, _ => none
          | _ => none
        else none
    else consParsed c (parseStrChars rest)
termination_by structural cs => cs

/-- Parse a complete JSON string literal (with its opening quote). -/
def parseQuoted (cs : List Char) : Option (String × List Char) :=
  match cs with
  | c :: rest =>
    if c = '"' then (parseStrChars rest).map (fun p => (String.mk p.1, p.2))
    else none
  | [] => none

/-- Parse one `"key":"value"` member. -/
def parseMember (cs : List Char) : Option ((String × String) × List Char) :=
  match parseQuoted cs with
  | some (k, r1) =>
    match r1 with
    | c :: r2 =>
      if c = ':' then (parseQuoted r2).map (fun p => ((k, p.1), p.2))
      else none
    | [] => none
  | none => none

/-- Parse the `, member`* `\x7d` tail of an object body (fuelled recursion; the
fuel only needs to dominate the number of members). -/
def parseMembersTail (fuel : Nat) (cs : List Char) :
    Option (List (String × String) × List Char) :=
  match fuel, cs with
  | _, [] => none
  | fuel, c :: r =>
    if c = '}' then some ([], r)
    else if c = ',' then
      match fuel with
      | 0 => none
      | fuel' + 1 =>
        match parseMember r with
        | some (kv, r2) =>
          match parseMembersTail fuel' r2 with
          | some (kvs, r3) => some (kv :: kvs, r3)
          | none => none
        | none => none
    else none
termination_by structural fuel

/-- Parse an object body: empty, or a first member followed by the tail. -/
def parseObjBody (fuel : Nat) (cs : List Char) :
    Option (List (String × String) × List Char) :=
  match cs with
  | [] => none
  | c :: r =>
    if c = '}' then some ([], r)
    else
      match parseMember (c :: r) with
      | some (kv, r2) =>
        match parseMembersTail fuel r2 with
        | some (kvs, r3) => some (kv :: kvs, r3)
        | none => none
      | none => none

/-- Parse a flat string-valued JSON object. -/
def parseFlatObjChars (cs : List Char) : Option (List (String × String) × List Char) :=
  match cs with
  | c :: r => if c = '{' then parseObjBody r.length r else none
  | [] => none

/-- `JSON.parse` restricted to the object shape actually consumed by the code
under verification: a flat object whose values are strings (the outer
`source`/`dest` records and the inner `id`/`type`/`name` records of the link
encoding).  Inputs outside this grammar are rejected, which models the code
path where `JSON.parse` throws or the subsequently accessed fields are
missing. -/
def jsonParseFlat (s : String) : Option (List (String × String)) :=
  match parseFlatObjChars s.data with
  | some (kvs, []) => some kvs
  | _ => none

/-! ### Round-trip lemmas for the codec -/

theorem hexVal_hexDigitChar (k : Nat) (hk : k < 16) :
    hexVal (hexDigitChar k) = some k := by
  interval_cases k <;> decide

set_option maxHeartbeats 2000000 in
theorem parseStrChars_escList (s : List Char) (rest : List Char) :
    parseStrChars (s.flatMap escChar ++ '"' :: rest) = some (s, rest) := by
  induction s with
  | nil =>
    simp only [List.flatMap_nil, List.nil_append]
    conv_lhs => rw [parseStrChars.eq_def]
    simp
  | cons c cs ih =>
    rw [List.flatMap_cons, List.append_assoc]
    by_cases h1 : c = '"'
    · subst h1
      rw [show escChar '"' = ['\\', '"'] from by decide]
      simp only [List.cons_append, List.nil_append]
      conv_lhs => rw [parseStrChars.eq_def]
      simp [consParsed, ih]
    · by_cases h2 : c = '\\'
      · subst h2
        rw [show escChar '\\' = ['\\', '\\'] from by decide]
        simp only [List.cons_append, List.nil_append]
        conv_lhs => rw [parseStrChars.eq_def]
        simp [consParsed, ih]
      · by_cases h3 : c = '\x08'
        · subst h3
          rw [show escChar '\x08' = ['\\', 'b'] from by decide]
          simp only [List.cons_append, List.nil_append]
          conv_lhs => rw [parseStrChars.eq_def]
          simp [consParsed, ih]
        · by_cases h4 : c = '\t'
          · subst h4
            rw [show escChar '\t' = ['\\', 't'] from by decide]
            simp only [List.cons_append, List.nil_append]
            conv_lhs => rw [parseStrChars.eq_def]
            simp [consParsed, ih]
          · by_cases h5 : c = '\n'
            · subst h5
              rw [show escChar '\n' = ['\\', 'n'] from by decide]
              simp only [List.cons_append, List.nil_append]
              conv_lhs => rw [parseStrChars.eq_def]
              simp [consParsed, ih]
            · by_cases h6 : c = '\x0c'
              · subst h6
                rw [show escChar '\x0c' = ['\\', 'f'] from by decide]
                simp only [List.cons_append, List.nil_append]
                conv_lhs => rw [parseStrChars.eq_def]
                simp [consParsed, ih]
              · by_cases h7 : c = '\r'
                · subst h7
                  rw [show escChar '\r' = ['\\', 'r'] from by decide]
                  simp only [List.cons_append, List.nil_append]
                  conv_lhs => rw [parseStrChars.eq_def]
                  simp [consParsed, ih]
                · by_cases h8 : c.toNat < 32
                  · rw [show escChar c =
                      ['\\', 'u', '0', '0', hexDigitChar (c.toNat / 16),
                        hexDigitChar (c.toNat % 16)] from by
                      simp [escChar, h1, h2, h3, h4, h5, h6, h7, h8]]
                    simp only [List.cons_append, List.nil_append]
                    conv_lhs => rw [parseStrChars.eq_def]
                    have h0 : hexVal '0' = some 0 := by decide
                    have hd1 : hexVal (hexDigitChar (c.toNat / 16)) = some (c.toNat / 16) :=
                      hexVal_hexDigitChar _ (by omega)
                    have hd2 : hexVal (hexDigitChar (c.toNat % 16)) = some (c.toNat % 16) :=
                      hexVal_hexDigitChar _ (by omega)
                    have harith : c.toNat / 16 * 16 + c.toNat % 16 = c.toNat := by
                      omega
                    simp [h0, hd1, hd2, harith, Char.ofNat_toNat, consParsed, ih]
                  · rw [show escChar c = [c] from by
                      simp [escChar, h1, h2, h3, h4, h5, h6, h7, h8]]
                    simp only [List.cons_append, List.nil_append]
                    conv_lhs => rw [parseStrChars.eq_def]
                    simp [h1, h2, consParsed, ih]

theorem parseQuoted_quotedChars (s : String) (rest : List Char) :
    parseQuoted (quotedChars s ++ rest) = some (s, rest) := by
  have h : quotedChars s ++ rest = '"' :: (s.data.flatMap escChar ++ '"' :: rest) := by
    simp [quotedChars, escList]
  rw [h]
  simp [parseQuoted, parseStrChars_escList]

theorem parseMember_memberChars (kv : String × String) (rest : List Char) :
    parseMember (memberChars kv ++ rest) = some (kv, rest) := by
  have h : memberChars kv ++ rest =
      quotedChars kv.1 ++ (':' :: (quotedChars kv.2 ++ rest)) := by
    simp [memberChars]
  rw [h]
  simp [parseMember, parseQuoted_quotedChars]

/-- The `, member`* spelling of all members after the first. -/
def tailChars (kvs : List (String × String)) : List Char :=
  kvs.flatMap (fun kv => ',' :: memberChars kv)

theorem membersChars_cons (kv : String × String) (kvs : List (String × String)) :
    membersChars (kv :: kvs) = memberChars kv ++ tailChars kvs := by
  induction kvs generalizing kv with
  | nil => simp [membersChars, tailChars]
  | cons kv2 rest ih =>
    simp only [membersChars, ih kv2, tailChars, List.flatMap_cons]
    simp

theorem length_le_tailChars (kvs : List (String × String)) :
    kvs.length ≤ (tailChars kvs).length := by
  induction kvs with
  | nil => simp [tailChars]
  | cons kv rest ih =>
    have h : tailChars (kv :: rest) = ',' :: (memberChars kv ++ tailChars rest) := by
      simp [tailChars]
    rw [h]
    simp only [List.length_cons, List.length_append]
    omega

theorem parseMembersTail_tailChars (kvs : List (String × String)) (fuel : Nat)
    (rest : List Char) (hfuel : kvs.length ≤ fuel) :
    parseMembersTail fuel (tailChars kvs ++ '}' :: rest) = some (kvs, rest) := by
  induction kvs generalizing fuel with
  | nil =>
    simp only [tailChars, List.flatMap_nil, List.nil_append]
    conv_lhs => rw [parseMembersTail.eq_def]
    simp
  | cons kv kvs ih =>
    have h : tailChars (kv :: kvs) ++ '}' :: rest =
        ',' :: (memberChars kv ++ (tailChars kvs ++ '}' :: rest)) := by
      simp [tailChars]
    rw [h]
    match fuel with
    | 0 => simp at hfuel
    | fuel' + 1 =>
      conv_lhs => rw [parseMembersTail.eq_def]
      have hm : parseMember (memberChars kv ++ (tailChars kvs ++ '}' :: rest)) =
          some (kv, tailChars kvs ++ '}' :: rest) := parseMember_memberChars kv _
      have ht : parseMembersTail fuel' (tailChars kvs ++ '}' :: rest) = some (kvs, rest) :=
        ih fuel' (by simpa using Nat.le_of_succ_le_succ hfuel)
      simp only [hm, ht]
      simp

theorem parseObjBody_member (kv : String × String) (kvs : List (String × String))
    (rest : List Char) (fuel : Nat) (hfuel : kvs.length ≤ fuel) :
    parseObjBody fuel (memberChars kv ++ (tailChars kvs ++ '}' :: rest)) =
      some (kv :: kvs, rest) := by
  obtain ⟨t, ht⟩ : ∃ t, memberChars kv = '"' :: t :=
    ⟨escList kv.1 ++ '"' :: ':' :: '"' :: (escList kv.2 ++ ['"']),
      by simp [memberChars, quotedChars]⟩
  rw [ht]
  simp only [List.cons_append]
  simp only [parseObjBody]
  rw [if_neg (by decide)]
  have hback : ('"' : Char) :: (t ++ (tailChars kvs ++ '}' :: rest)) =
      memberChars kv ++ (tailChars kvs ++ '}' :: rest) := by
    rw [ht]; simp
  rw [hback, parseMember_memberChars]
  simp [parseMembersTail_tailChars kvs fuel rest hfuel]

theorem jsonParseFlat_stringifyFlatObj (kvs : List (String × String)) :
    jsonParseFlat (stringifyFlatObj kvs) = some kvs := by
  match kvs with
  | [] => decide
  | kv :: kvs' =>
    have hdata : (stringifyFlatObj (kv :: kvs')).data =
        '{' :: (memberChars kv ++ (tailChars kvs' ++ '}' :: [])) := by
      simp [stringifyFlatObj, membersChars_cons]
    have hfuel : kvs'.length ≤ (memberChars kv ++ (tailChars kvs' ++ '}' :: [])).length := by
      have := length_le_tailChars kvs'
      simp only [List.length_append, List.length_cons]
      omega
    have hr : parseFlatObjChars ('{' :: (memberChars kv ++ (tailChars kvs' ++ '}' :: []))) =
        some (kv :: kvs', []) := by
      simp only [parseFlatObjChars]
      simp only [if_true]
      exact parseObjBody_member kv kvs' [] _ hfuel
    unfold jsonParseFlat
    rw [hdata, hr]

/-! ## Link encoding and decoding

`createProgram` (src/programs.js) encodes a link as
`JSON.stringify(\x7bsource: JSON.stringify(\x7bid, type: 'outputs', name\x7d),
dest: JSON.stringify(\x7bid, type: 'inputs', name\x7d)\x7d)` — the triple
encoding.  `getProgramState` (src/browser.js) decodes it with `JSON.parse`
on the entry, then `JSON.parse` on its `source` and `dest` fields. -/

/-- A decoded connection tuple.  The code reads the port names from the inner
objects' `name` fields (`source.name` / `dest.name`). -/
structure LinkConn where
  sourceId : String
  sourcePort : String
  destId : String
  destPort : String
deriving DecidableEq

/-- `JSON.stringify` of the inner `id`/`type`/`name` record.  When the port is
`undefined` (a link spec with no `.` separator), `JSON.stringify` omits the
`name` property. -/
def stringifyInner (id ty : String) (nm : Option String) : String :=
  match nm with
  | some n => stringifyFlatObj [("id", id), ("type", ty), ("name", n)]
  | none => stringifyFlatObj [("id", id), ("type", ty)]

/-- The full triple-encoded link string built by `createProgram`. -/
def encodeLinkStr (sid : String) (sp : Option String) (did : String)
    (dp : Option String) : String :=
  stringifyFlatObj
    [("source", stringifyInner sid "outputs" sp), ("dest", stringifyInner did "inputs" dp)]

/-- The decoding performed by `getProgramState` on one overlay entry:
`JSON.parse` the entry, `JSON.parse` its `source` and `dest` fields, and read
the `id` and `name` fields of each.  Any failure models the exception that the
surrounding `try` swallows (the entry is skipped). -/
def decodeLink (s : String) : Option LinkConn :=
  match jsonParseFlat s with
  | none => none
  | some outer =>
    match List.lookup "source" outer, List.lookup "dest" outer with
    | some srcStr, some dstStr =>
      match jsonParseFlat srcStr, jsonParseFlat dstStr with
      | some srcObj, some dstObj =>
        match List.lookup "id" srcObj, List.lookup "name" srcObj,
            List.lookup "id" dstObj, List.lookup "name" dstObj with
        | some sid, some sp, some did, some dp => some ⟨sid, sp, did, dp⟩
        | _, _, _, _ => none
      | _, _ => none
    | _, _ => none

theorem decodeLink_encodeLinkStr (sid did : String) (sp dp : Option String) :
    decodeLink (encodeLinkStr sid sp did dp) =
      match sp, dp with
      | some a, some b => some ⟨sid, a, did, b⟩
      | _, _ => none := by
  match sp, dp with
  | some a, some b =>
    simp [decodeLink, encodeLinkStr, stringifyInner, jsonParseFlat_stringifyFlatObj,
      List.lookup]
  | some a, none =>
    simp [decodeLink, encodeLinkStr, stringifyInner, jsonParseFlat_stringifyFlatObj,
      List.lookup]
  | none, some b =>
    simp [decodeLink, encodeLinkStr, stringifyInner, jsonParseFlat_stringifyFlatObj,
      List.lookup]
  | none, none =>
    simp [decodeLink, encodeLinkStr, stringifyInner, jsonParseFlat_stringifyFlatObj,
      List.lookup]

/-! ## The `var name = "..."` regex

Both `createProgram` and `extractWithRegex` extract a module's declared name
with the JavaScript regex that matches `var`, whitespace, `name`, optional
whitespace, `=`, optional whitespace, a quote, one or more non-quote
characters, and a closing quote (either quote kind on either side).  The
embedding reproduces the leftmost-match semantics of `String.prototype.match`. -/

/-- JavaScript `\s` on the character classes that occur in module sources. -/
def isJsSpace (c : Char) : Bool :=
  c = ' ' || c = '\t' || c = '\n' || c = '\r' || c = '\x0b' || c = '\x0c'

/-- Match a literal character sequence, returning the remainder. -/
def litChars : List Char → List Char → Option (List Char)
  | [], r => some r
  | _ :: _, [] => none
  | c :: cs, d :: r => if c = d then litChars cs r else none

/-- `\s*`: drop any run of whitespace. -/
def dropSpaces (cs : List Char) : List Char := cs.dropWhile isJsSpace

/-- `\s+`: require at least one whitespace character, then drop the run. -/
def dropSpaces1 : List Char → Option (List Char)
  | c :: r => if isJsSpace c then some (dropSpaces r) else none
  | [] => none

/-- Either quote character, as in the regex class matching both quote kinds. -/
def quoteChar (c : Char) : Bool := c = '\'' || c = '"'

/-- JavaScript `toLowerCase` on the ASCII range (character-wise, so that
concrete witnesses evaluate). -/
def jsToLower (s : String) : String := String.mk (s.data.map Char.toLower)

/-- JavaScript `trim`: strip leading and trailing whitespace. -/
def jsTrim (s : String) : String :=
  String.mk (((s.data.dropWhile isJsSpace).reverse.dropWhile isJsSpace).reverse)

/-- Attempt the `var\s+name\s*=\s*(quote)([^quotes]+)(quote)` match at this
position. -/
def matchVarNameAt (cs : List Char) : Option String :=
  match litChars ['v', 'a', 'r'] cs with
  | none => none
  | some r0 =>
    match dropSpaces1 r0 with
    | none => none
    | some r1 =>
      match litChars ['n', 'a', 'm', 'e'] r1 with
      | none => none
      | some r2 =>
        match litChars ['='] (dropSpaces r2) with
        | none => none
        | some r3 =>
          match dropSpaces r3 with
          | q :: r4 =>
            if quoteChar q then
              let content := r4.takeWhile (fun c => !quoteChar c)
              match r4.dropWhile (fun c => !quoteChar c) with
              | q2 :: _ =>
                if quoteChar q2 && !content.isEmpty then some (String.mk content)
                else none
              | [] => none
            else none
          | [] => none

/-- Leftmost-match scan of the whole source. -/
def matchVarNameGo : List Char → Option String
  | [] => none
  | c :: rest =>
    match matchVarNameAt (c :: rest) with
    | some n => some n
    | none => matchVarNameGo rest

/-- `source.match(/var\s+name\s*=\s*['"]([^'"]+)['"]/)`, returning the capture
of the first match. -/
def matchVarName (s : String) : Option String := matchVarNameGo s.data

/-! ## `createProgram` (src/programs.js)

`createProgram(modulePaths, links)` reads each module source, keys it in the
`modules` object under a fresh `Math.random().toString()` id, records the
declared name in `nameToId`, then encodes each link after resolving both
module names; an unresolved side throws, aborting the whole build.

The file system is modelled by a total function `fs : String → String` (the
claims only concern readable paths) and the `Math.random().toString()`
sequence by an id supply `idSupply : Nat → String`. -/

/-- JavaScript object assignment `obj[k] = v` on a string-keyed object:
overwrite in place if the key exists, otherwise append. -/
def objInsert {α : Type} : List (String × α) → String → α → List (String × α)
  | [], k, v => [(k, v)]
  | (k', v') :: rest, k, v =>
    if k' = k then (k, v) :: rest else (k', v') :: objInsert rest k v

/-- One entry of the persisted `modules` map. -/
structure ProgModule where
  definition : String
  top : String
  left : String
  filename : String
  inputs : List (String × String)
  outputs : List (String × String)
deriving DecidableEq

/-- One link spec passed to `createProgram`.  The fields model the JavaScript
`from` and `to` properties (`from` is a Lean keyword). -/
structure BuildLink where
  fromSpec : String
  toSpec : String
deriving DecidableEq

/-- A persisted Program Document: the `modules` object (insertion-ordered) and
the `links` array of triple-encoded strings. -/
structure ProgramDoc where
  modules : List (String × ProgModule)
  links : List String
deriving DecidableEq

/-- JavaScript `str.split(sep)` for a single-character separator. -/
def splitOnChar (sep : Char) : List Char → List (List Char)
  | [] => [[]]
  | c :: rest =>
    if c = sep then [] :: splitOnChar sep rest
    else
      match splitOnChar sep rest with
      | [] => [[c]]
      | h :: t => (c :: h) :: t

/-- `link.from.split('.')` as strings. -/
def linkParts (s : String) : List String := (splitOnChar '.' s.data).map String.mk

/-- The module-name part (`split('.')[0]`; `split` never returns an empty
array). -/
def partModule (s : String) : String := (linkParts s).headD ""

/-- The port part (`split('.')[1]`, `undefined` when there is no dot). -/
def partPort (s : String) : Option String := (linkParts s).get? 1

/-- JavaScript falsiness of `nameToId[...]`: `undefined` or the empty string. -/
def jsFalsy : Option String → Bool
  | none => true
  | some s => s = ""

/-- Resolve and encode one link, or throw `Module not found in link: <side>`
naming the source side when it is unresolved and the destination side
otherwise. -/
def resolveLink (nameToId : List (String × String)) (l : BuildLink) :
    Except String String :=
  let fromModule := partModule l.fromSpec
  let toModule := partModule l.toSpec
  let sourceId := List.lookup fromModule nameToId
  let destId := List.lookup toModule nameToId
  if jsFalsy sourceId || jsFalsy destId then
    .error ("Module not found in link: " ++
      (if jsFalsy sourceId then fromModule else toModule))
  else
    .ok (encodeLinkStr (sourceId.getD "") (partPort l.fromSpec)
      (destId.getD "") (partPort l.toSpec))

/-- Encode the links in order; the first failure aborts the loop (the thrown
error propagates out of `createProgram`). -/
def encodeLinks (nameToId : List (String × String)) :
    List BuildLink → Except String (List String)
  | [] => .ok []
  | l :: rest =>
    match resolveLink nameToId l with
    | .error e => .error e
    | .ok s =>
      match encodeLinks nameToId rest with
      | .error e => .error e
      | .ok ss => .ok (s :: ss)

/-- One iteration of the module loop: store the source under the fresh id and
record the declared name (when the regex matches) in `nameToId`. -/
def buildStep (fs : String → String)
    (acc : List (String × ProgModule) × List (String × String))
    (pathId : String × String) :
    List (String × ProgModule) × List (String × String) :=
  let source := fs pathId.1
  let mods := objInsert acc.1 pathId.2
    ⟨source, "100", "100", pathId.1, [], []⟩
  let names :=
    match matchVarName source with
    | some nm => objInsert acc.2 nm pathId.2
    | none => acc.2
  (mods, names)

/-- Pair each path with its fresh id from the supply, in loop order. -/
def withIds (idSupply : Nat → String) : List String → Nat → List (String × String)
  | [], _ => []
  | p :: rest, i => (p, idSupply i) :: withIds idSupply rest (i + 1)

/-- The `modules` and `nameToId` objects after the module loop. -/
def buildModules (fs : String → String) (idSupply : Nat → String)
    (paths : List String) :
    List (String × ProgModule) × List (String × String) :=
  (withIds idSupply paths 0).foldl (buildStep fs) ([], [])

/-- `createProgram(modulePaths, links)`: build the modules map, then the
triple-encoded links; a link-resolution error aborts the whole build and no
document is returned. -/
def createProgram (fs : String → String) (idSupply : Nat → String)
    (modulePaths : List String) (links : List BuildLink) :
    Except String ProgramDoc :=
  let built := buildModules fs idSupply modulePaths
  match encodeLinks built.2 links with
  | .error e => .error e
  | .ok ls => .ok ⟨built.1, ls⟩

/-- The connection tuple a link spec denotes under a given `nameToId` map:
defined exactly when both module names resolve and both sides carry a port
after the dot. -/
def connOfLink (nameToId : List (String × String)) (l : BuildLink) :
    Option LinkConn :=
  match List.lookup (partModule l.fromSpec) nameToId,
      List.lookup (partModule l.toSpec) nameToId,
      partPort l.fromSpec, partPort l.toSpec with
  | some sid, some did, some sp, some dp => some ⟨sid, sp, did, dp⟩
  | _, _, _, _ => none

theorem decodeLink_resolveLink (nameToId : List (String × String)) (l : BuildLink)
    (s : String) (h : resolveLink nameToId l = .ok s) :
    decodeLink s = connOfLink nameToId l := by
  unfold resolveLink at h
  by_cases hf : jsFalsy (List.lookup (partModule l.fromSpec) nameToId) ||
      jsFalsy (List.lookup (partModule l.toSpec) nameToId)
  · rw [if_pos hf] at h
    exact absurd h (by simp)
  · rw [if_neg hf] at h
    have hs : s = encodeLinkStr ((List.lookup (partModule l.fromSpec) nameToId).getD "")
        (partPort l.fromSpec) ((List.lookup (partModule l.toSpec) nameToId).getD "")
        (partPort l.toSpec) := by
      cases h; rfl
    subst hs
    rw [decodeLink_encodeLinkStr]
    simp only [Bool.or_eq_true, not_or] at hf
    obtain ⟨hf1, hf2⟩ := hf
    match hsrc : List.lookup (partModule l.fromSpec) nameToId with
    | none => rw [hsrc] at hf1; simp [jsFalsy] at hf1
    | some sid =>
      match hdst : List.lookup (partModule l.toSpec) nameToId with
      | none => rw [hdst] at hf2; simp [jsFalsy] at hf2
      | some did =>
        rw [hsrc] at hf1
        rw [hdst] at hf2
        unfold connOfLink
        rw [hsrc, hdst]
        simp only [Option.getD_some]
        match partPort l.fromSpec, partPort l.toSpec with
        | some a, some b => rfl
        | some a, none => rfl
        | none, some b => rfl
        | none, none => rfl

/-! ## Session state reading (src/browser.js)

The rendered page is modelled by the parts of the DOM the code reads: the
`#modules` container's child nodes (id, `data-*` attributes, input controls
and buttons) and the ids of the children of the `#svg` `#links` overlay group.
`modulesContainer = none` models a page without the container element, and
`svgLinks = none` a page where the svg or its links group is absent. -/

/-- An `<input>` control inside a module node.  `prevText` is the
`textContent` of `input.previousSibling` (`none` when there is no previous
sibling). -/
structure InputCtl where
  type : String
  value : String
  checked : Bool
  prevText : Option String
deriving DecidableEq

/-- A child node of the `#modules` container.  A missing `id` attribute reads
as the empty string in the DOM, and missing `data-*` attributes are `none`. -/
structure ModuleNode where
  id : String
  dataName : Option String
  dataDefinition : Option String
  dataTop : Option String
  dataLeft : Option String
  dataFilename : Option String
  inputs : List InputCtl
  buttons : List String
deriving DecidableEq

/-- The rendered page as seen by the state-reading code. -/
structure Page where
  modulesContainer : Option (List ModuleNode)
  svgLinks : Option (List String)
deriving DecidableEq

/-- One `\x7blabel, value, type\x7d` parameter record. -/
structure Param where
  label : String
  value : String
  type : String
deriving DecidableEq

/-- One connection record attached to a module: models the
`\x7bfrom, fromId, port\x7d` / `\x7bto, toId, port\x7d` objects.  `peer` is
`Option` because `dataset.name` of a found peer node can be `undefined`. -/
structure ConnRecord where
  peer : Option String
  peerId : String
  port : String
deriving DecidableEq

/-- The state reported for one module. -/
structure ModuleState where
  id : String
  name : String
  params : List Param
  buttons : List String
  connected : Option (List ConnRecord × List ConnRecord)
deriving DecidableEq

/-- The label shown for a control: `previousSibling.textContent.trim()` when
the sibling exists and its text is truthy, else the empty string. -/
def labelOfState (o : Option String) : String :=
  match o with
  | some t => if t = "" then "" else jsTrim t
  | none => ""

/-- Read one parameter: checkbox controls report the boolean checked-state as
the string `"true"`/`"false"`; every other control reports its raw value. -/
def readParam (ctl : InputCtl) : Param :=
  if ctl.type = "checkbox" then
    ⟨labelOfState ctl.prevText, if ctl.checked then "true" else "false", "checkbox"⟩
  else
    ⟨labelOfState ctl.prevText, ctl.value, ctl.type⟩

/-- Decode the overlay entries into connection tuples, skipping falsy ids and
entries whose decoding throws. -/
def linkConns (links : List String) : List LinkConn :=
  links.filterMap (fun s => if s = "" then none else decodeLink s)

/-- `document.getElementById(pid)?.dataset.name`, with the fallback to the raw
id used by the connection-name lookup. -/
def peerNameOf (container : List ModuleNode) (pid : String) : Option String :=
  match container.find? (fun n => n.id == pid) with
  | some n => n.dataName
  | none => some pid

/-- The `port` description string `source.name + ' → ' + dest.name`. -/
def connPort (c : LinkConn) : String := c.sourcePort ++ " → " ++ c.destPort

/-- The `connectedFrom` records accumulated for a module id (one per decoded
link whose destination is this module, in overlay order). -/
def inputRecords (container : List ModuleNode) (conns : List LinkConn)
    (mid : String) : List ConnRecord :=
  (conns.filter (fun c => c.destId == mid)).map
    (fun c => ⟨peerNameOf container c.sourceId, c.sourceId, connPort c⟩)

/-- The `connectedTo` records accumulated for a module id. -/
def outputRecords (container : List ModuleNode) (conns : List LinkConn)
    (mid : String) : List ConnRecord :=
  (conns.filter (fun c => c.sourceId == mid)).map
    (fun c => ⟨peerNameOf container c.destId, c.destId, connPort c⟩)

/-- Whether the connection map has an entry for this id (it is created for
every id occurring as source or dest of a decoded link). -/
def hasConn (conns : List LinkConn) (mid : String) : Bool :=
  conns.any (fun c => c.sourceId == mid || c.destId == mid)

/-- The state entry built for one module node. -/
def moduleStateOf (container : List ModuleNode) (conns : List LinkConn)
    (n : ModuleNode) : ModuleState :=
  { id := n.id
  , name := n.dataName.getD ""
  , params := n.inputs.map readParam
  , buttons := n.buttons.map jsTrim
  , connected :=
      if hasConn conns n.id then
        some (inputRecords container conns n.id, outputRecords container conns n.id)
      else none }

/-- `getProgramState()`: returns `[]` when the `#modules` container is absent;
otherwise reads every child with a truthy id, in container order, attaching
connection info reconstructed from the overlay. -/
def getProgramState (page : Page) : List ModuleState :=
  match page.modulesContainer with
  | none => []
  | some container =>
    let conns := linkConns (page.svgLinks.getD [])
    container.filterMap
      (fun n => if n.id = "" then none else some (moduleStateOf container conns n))

/-- JavaScript `a || d` for an optional string attribute with default `d`. -/
def jsOrStr (o : Option String) (d : String) : String :=
  match o with
  | some s => if s = "" then d else s
  | none => d

/-- The persisted entry written for one module node by `extractProgramState`:
`dataset` fields with `|| ''` / `|| '0'` defaults and empty `inputs`/`outputs`
placeholders. -/
def extractEntry (n : ModuleNode) : ProgModule :=
  { definition := jsOrStr n.dataDefinition ""
  , top := jsOrStr n.dataTop "0"
  , left := jsOrStr n.dataLeft "0"
  , filename := jsOrStr n.dataFilename ""
  , inputs := []
  , outputs := [] }

/-- `extractProgramState()`: `null` when the `#modules` container is absent;
otherwise the persisted form — modules keyed by id (skipping falsy ids) and
the raw overlay entry ids as `links` (skipping falsy ids, with no parsing). -/
def extractProgramState (page : Page) : Option ProgramDoc :=
  match page.modulesContainer with
  | none => none
  | some container =>
    some
      { modules := container.foldl
          (fun acc n => if n.id = "" then acc else objInsert acc n.id (extractEntry n)) []
      , links := (page.svgLinks.getD []).filter (fun s => s ≠ "") }

/-- Case-sensitive JavaScript `String.prototype.includes` on character data. -/
def isPrefixB : List Char → List Char → Bool
  | [], _ => true
  | _ :: _, [] => false
  | a :: as, b :: bs => a == b && isPrefixB as bs

/-- Substring search used to model `includes`. -/
def infixB (needle : List Char) : List Char → Bool
  | [] => needle.isEmpty
  | c :: rest => isPrefixB needle (c :: rest) || infixB needle rest

/-- `hay.includes(needle)`. -/
def jsIncludes (hay needle : String) : Bool := infixB needle.data hay.data

/-- The result record of `setModuleInput`. -/
inductive SetInputResult where
  | moduleNotFound (msg : String)
  | paramNotFound (msg : String)
  | okCheckbox (label : String) (newChecked : Bool)
  | okValue (label : String) (newValue : String)
deriving DecidableEq

/-- The label used by `setModuleInput`/`readModuleInput`:
`prev ? prev.textContent.trim() : ''`. -/
def labelOfSet (o : Option String) : String :=
  match o with
  | some t => jsTrim t
  | none => ""

/-- Find the first control whose derived label contains the requested name. -/
def findInputByLabel (pname : String) (ctls : List InputCtl) : Option InputCtl :=
  ctls.find? (fun ctl => jsIncludes (labelOfSet ctl.prevText) pname)

/-- `setModuleInput(moduleId, paramName, value)`: report
`Module <id> not found` / `Parameter "<p>" not found in module <id>` errors, or
the mutation performed (checkbox coercion of `"true"`/`"1"`/`"on"`, otherwise
the raw value). -/
def setModuleInput (container : List ModuleNode) (moduleId pname value : String) :
    SetInputResult :=
  match container.find? (fun n => n.id == moduleId) with
  | none => .moduleNotFound ("Module " ++ moduleId ++ " not found")
  | some mod =>
    match findInputByLabel pname mod.inputs with
    | none =>
      .paramNotFound ("Parameter \"" ++ pname ++ "\" not found in module " ++ moduleId)
    | some ctl =>
      if ctl.type = "checkbox" then
        .okCheckbox (labelOfSet ctl.prevText)
          (value = "true" || value = "1" || value = "on")
      else
        .okValue (labelOfSet ctl.prevText) value

/-- The result record of `clickModuleButton`. -/
inductive ClickResult where
  | moduleNotFound (msg : String)
  | clicked (text : String)
  | buttonNotFound (msg : String) (available : List String)
deriving DecidableEq

/-- `clickModuleButton(moduleId, buttonText)`: click the first button whose
trimmed text contains the requested text case-insensitively; a miss reports
the full list of available (trimmed) button texts. -/
def clickModuleButton (container : List ModuleNode) (moduleId btext : String) :
    ClickResult :=
  match container.find? (fun n => n.id == moduleId) with
  | none => .moduleNotFound ("Module " ++ moduleId ++ " not found")
  | some mod =>
    match mod.buttons.find? (fun b => jsIncludes (jsToLower (jsTrim b)) (jsToLower btext)) with
    | some b => .clicked (jsTrim b)
    | none =>
      .buttonNotFound ("Button \"" ++ btext ++ "\" not found")
        (mod.buttons.map jsTrim)

/-! ## Module lookup (src/server.js)

`findModule(moduleName, moduleId)` resolves a module from the current session
state: exact id match when an id is given (truthy), otherwise the first module
whose lowercased name contains the lowercased query; each failure produces its
error string.  The `set_parameter`/`trigger_action`/`load_file` tools first
split a `name:id` reference when it contains `:0.`. -/

/-- `findModule` over a session state snapshot. -/
def findModule (state : List ModuleState) (moduleName : String)
    (moduleId : Option String) : Except String ModuleState :=
  let idTruthy : Bool := match moduleId with | some s => s != "" | none => false
  if idTruthy then
    match state.find? (fun m => m.id == moduleId.getD "") with
    | none =>
      .error ("Module with ID \"" ++ moduleId.getD "" ++ "\" not found.")
    | some m => .ok m
  else
    match state.find? (fun m => jsIncludes (jsToLower m.name) (jsToLower moduleName)) with
    | none =>
      .error ("Module \"" ++ moduleName ++ "\" not found. Available: " ++
        String.intercalate ", " ((state.map ModuleState.name).filter (fun s => s ≠ "")))
    | some m => .ok m

/-- The `name:id` disambiguation split performed by the tools: triggered when
the reference contains `:0.`, the name is the part before the first colon and
the id is the remainder rejoined on colons. -/
def parseModuleRef (module_name : String) : String × Option String :=
  if jsIncludes module_name ":0." then
    let parts := (splitOnChar ':' module_name.data).map String.mk
    (parts.headD "", some (String.intercalate ":" parts.tail))
  else (module_name, none)

/-- The module resolution performed by the driver-facing tools: parse the
reference, then `findModule`. -/
def refLookup (state : List ModuleState) (module_name : String) :
    Except String ModuleState :=
  let p := parseModuleRef module_name
  findModule state p.1 p.2

/-! ## Module introspection (src/modules.js)

`getModuleInfo` first evaluates the module source in a `vm` sandbox
(`extractWithVm`); the outcome of that evaluation of arbitrary JavaScript is
modelled as an oracle parameter `vmOutcome` (`none` = the structural path
threw).  On failure it falls back to `extractWithRegex`, a pure text scan
embedded below; the scan of a string cannot throw, so the source's final
`catch` branch returning `parseMethod: 'failed'` is unreachable and the
embedding produces no such result. -/

/-- The value produced by a successful sandbox evaluation, as consumed by
`getModuleInfo`: optional `name`, and optional `inputs`/`outputs` objects
whose entries have an optional `type` field. -/
structure VmVal where
  name : Option String
  inputs : Option (List (String × Option String))
  outputs : Option (List (String × Option String))

/-- The introspection result.  `name` is `Option` because the vm path passes
`result.name` through unchecked; the regex path always produces a string. -/
structure ModuleInfo where
  name : Option String
  inputs : List (String × String)
  outputs : List (String × String)
  parseMethod : String
deriving DecidableEq

/-- JavaScript `\w`. -/
def isWordChar (c : Char) : Bool := c.isAlphanum || c = '_'

/-- Match `var\s+<kw>\s*=\s*\x7b` at this position, returning the remainder
after the opening brace. -/
def matchBlockHeaderAt (kw : List Char) (cs : List Char) : Option (List Char) :=
  match litChars ['v', 'a', 'r'] cs with
  | none => none
  | some r0 =>
    match dropSpaces1 r0 with
    | none => none
    | some r1 =>
      match litChars kw r1 with
      | none => none
      | some r2 =>
        match litChars ['='] (dropSpaces r2) with
        | none => none
        | some r3 => litChars ['{'] (dropSpaces r3)

/-- The lazy `([\s\S]*?)` capture: the shortest prefix before a position where
`\n\s*\x7d` matches. -/
def findLazyCapture : List Char → Option (List Char)
  | [] => none
  | c :: rest =>
    if c = '\n' && (match rest.dropWhile isJsSpace with
      | d :: _ => d = '}'
      | [] => false) then some []
    else (findLazyCapture rest).map (fun cap => c :: cap)

/-- Leftmost match of `var\s+<kw>\s*=\s*\x7b([\s\S]*?)\n\s*\x7d`, retrying
later start positions when the lazy terminator is missing, as the regex engine
does. -/
def findBlock (kw : List Char) : List Char → Option (List Char)
  | [] => none
  | c :: rest =>
    match matchBlockHeaderAt kw (c :: rest) with
    | some r =>
      match findLazyCapture r with
      | some cap => some cap
      | none => findBlock kw rest
    | none => findBlock kw rest

/-- Match `type\s*:\s*(quote)([^quotes]*)(quote)` at this position, returning
the captured type and the remainder after the match. -/
def typeTailAt (cs : List Char) : Option (String × List Char) :=
  match litChars ['t', 'y', 'p', 'e'] cs with
  | none => none
  | some r0 =>
    match litChars [':'] (dropSpaces r0) with
    | none => none
    | some r1 =>
      match dropSpaces r1 with
      | q :: r2 =>
        if quoteChar q then
          let content := r2.takeWhile (fun c => !quoteChar c)
          match r2.dropWhile (fun c => !quoteChar c) with
          | q2 :: rest => if quoteChar q2 then some (String.mk content, rest) else none
          | [] => none
        else none
      | [] => none

/-- Greedy `[^\x7d]*` with backtracking before the `type` literal: try the
largest offset within the non-brace span first. -/
def greedyTypeSearch (r : List Char) : Nat → Option (String × List Char)
  | 0 => typeTailAt r
  | k + 1 =>
    match typeTailAt (r.drop (k + 1)) with
    | some res => some res
    | none => greedyTypeSearch r k

/-- Match one `(\w+)\s*:\s*\x7b[^\x7d]*type\s*:\s*(quote)([^quotes]*)(quote)`
entry at this position. -/
def typeEntryAt (cs : List Char) : Option (String × String × List Char) :=
  let key := cs.takeWhile isWordChar
  if key.isEmpty then none
  else
    let r0 := cs.dropWhile isWordChar
    match litChars [':'] (dropSpaces r0) with
    | none => none
    | some r1 =>
      match litChars ['{'] (dropSpaces r1) with
      | none => none
      | some r2 =>
        let span := (r2.takeWhile (fun c => c ≠ '}')).length
        match greedyTypeSearch r2 span with
        | some (ty, rest) => some (String.mk key, ty, rest)
        | none => none

/-- `matchAll` over the block: repeated leftmost search, resuming after each
match (fuelled; a successful match always consumes at least the key). -/
def typeEntriesGo : Nat → List Char → List (String × String)
  | 0, _ => []
  | _ + 1, [] => []
  | fuel + 1, c :: rest =>
    match typeEntryAt (c :: rest) with
    | some (k, v, after) => (k, v) :: typeEntriesGo fuel after
    | none => typeEntriesGo fuel rest

/-- All `key: \x7b..., type: "..."\x7d` entries of a block text. -/
def typeEntries (cs : List Char) : List (String × String) :=
  typeEntriesGo cs.length cs

/-- The `inputs[m[1]] = \x7btype: m[2]\x7d` accumulation (later duplicate keys
overwrite). -/
def entriesToObj (es : List (String × String)) : List (String × String) :=
  es.foldl (fun acc kv => objInsert acc kv.1 kv.2) []

/-- `extractWithRegex(source)`: the pattern-matching fallback.  It is a total
function of the source text — `String.prototype.match`/`matchAll` with these
literal regexes cannot throw. -/
def extractWithRegex (source : String) :
    String × List (String × String) × List (String × String) :=
  ( (matchVarName source).getD "unknown"
  , match findBlock ['i', 'n', 'p', 'u', 't', 's'] source.data with
    | some block => entriesToObj (typeEntries block)
    | none => []
  , match findBlock ['o', 'u', 't', 'p', 'u', 't', 's'] source.data with
    | some block => entriesToObj (typeEntries block)
    | none => [] )

/-- `getModuleInfo` after the file read: the vm outcome (oracle) selects the
structural result (`parseMethod: 'vm'`) or the regex fallback
(`parseMethod: 'regex'`).  The `path`/`source` passthrough fields are omitted;
the `catch` branch producing `parseMethod: 'failed'` is unreachable because
the fallback is total. -/
def getModuleInfo (source : String) (vmOutcome : Option VmVal) : ModuleInfo :=
  match vmOutcome with
  | some v =>
    { name := v.name
    , inputs := (v.inputs.getD []).map (fun kv => (kv.1, kv.2.getD ""))
    , outputs := (v.outputs.getD []).map (fun kv => (kv.1, kv.2.getD ""))
    , parseMethod := "vm" }
  | none =>
    let r := extractWithRegex source
    { name := some r.1
    , inputs := r.2.1
    , outputs := r.2.2
    , parseMethod := "regex" }

/-! ## Helper lemmas about JavaScript-object insertion and the module loop -/

theorem objInsert_mem {α : Type} (l : List (String × α)) (k : String) (v : α)
    (e : String × α) (he : e ∈ objInsert l k v) : e ∈ l ∨ e = (k, v) := by
  induction l with
  | nil => simpa [objInsert] using he
  | cons hd tl ih =>
    unfold objInsert at he
    by_cases hk : hd.1 = k
    · rw [if_pos hk] at he
      rcases List.mem_cons.mp he with h | h
      · right; exact h
      · left; exact List.mem_cons_of_mem _ h
    · rw [if_neg hk] at he
      rcases List.mem_cons.mp he with h | h
      · left; exact h ▸ List.mem_cons_self _ _
      · rcases ih h with h' | h'
        · left; exact List.mem_cons_of_mem _ h'
        · right; exact h'

theorem objInsert_fst {α : Type} (l : List (String × α)) (k : String) (v : α) :
    (objInsert l k v).map Prod.fst =
      if k ∈ l.map Prod.fst then l.map Prod.fst else l.map Prod.fst ++ [k] := by
  induction l with
  | nil => simp [objInsert]
  | cons hd tl ih =>
    unfold objInsert
    by_cases hk : hd.1 = k
    · rw [if_pos hk]
      simp [hk]
    · rw [if_neg hk]
      by_cases hmem : k ∈ tl.map Prod.fst
      · simp only [List.map_cons, ih, if_pos hmem]
        rw [if_pos (by simp [hmem])]
      · have : ¬ (k ∈ (hd :: tl).map Prod.fst) := by
          simp only [List.map_cons, List.mem_cons]
          push_neg
          exact ⟨fun h => hk h.symm, hmem⟩
        rw [if_neg this]
        simp [ih, if_neg hmem]

theorem objInsert_fst_nodup {α : Type} (l : List (String × α)) (k : String) (v : α)
    (h : (l.map Prod.fst).Nodup) : ((objInsert l k v).map Prod.fst).Nodup := by
  rw [objInsert_fst]
  by_cases hmem : k ∈ l.map Prod.fst
  · rw [if_pos hmem]; exact h
  · rw [if_neg hmem]
    simpa using List.Nodup.append h (by simp) (by simpa using hmem)

theorem objInsert_fresh {α : Type} (l : List (String × α)) (k : String) (v : α)
    (h : k ∉ l.map Prod.fst) : objInsert l k v = l ++ [(k, v)] := by
  induction l with
  | nil => simp [objInsert]
  | cons hd tl ih =>
    unfold objInsert
    have hk : ¬ hd.1 = k := by
      intro he
      exact h (by simp [he])
    rw [if_neg hk]
    rw [ih (by intro hm; exact h (by simp [hm]))]
    simp

theorem lookup_mem_snd {α : Type} [BEq α] (l : List (String × α)) (k : String) (v : α)
    (h : List.lookup k l = some v) : v ∈ l.map Prod.snd := by
  induction l with
  | nil => simp [List.lookup] at h
  | cons hd tl ih =>
    rw [List.lookup] at h
    split at h
    · simp only [Option.some.injEq] at h
      simp [h.symm]
    · simpa using Or.inr (ih h)

/-- Every entry of the modules map after the loop satisfies a property that
holds of the accumulator's entries and of every freshly inserted entry. -/
theorem buildFold_entries (fs : String → String)
    (P : String × ProgModule → Prop) :
    ∀ (pairs : List (String × String))
      (acc : List (String × ProgModule) × List (String × String)),
      (∀ e ∈ acc.1, P e) →
      (∀ pr ∈ pairs, P (pr.2, ⟨fs pr.1, "100", "100", pr.1, [], []⟩)) →
      ∀ e ∈ (pairs.foldl (buildStep fs) acc).1, P e := by
  intro pairs
  induction pairs with
  | nil => intro acc hacc _ e he; exact hacc e he
  | cons pr rest ih =>
    intro acc hacc hpairs e he
    rw [List.foldl_cons] at he
    refine ih (buildStep fs acc pr) ?_ (fun q hq => hpairs q (List.mem_cons_of_mem _ hq)) e he
    intro e' he'
    unfold buildStep at he'
    rcases objInsert_mem _ _ _ _ he' with h | h
    · exact hacc e' h
    · rw [h]; exact hpairs pr (List.mem_cons_self _ _)

/-- The nameToId values stay within the modules-map keys. -/
theorem buildFold_names_sub (fs : String → String) :
    ∀ (pairs : List (String × String))
      (acc : List (String × ProgModule) × List (String × String)),
      (∀ i ∈ acc.2.map Prod.snd, i ∈ acc.1.map Prod.fst) →
      ∀ i ∈ ((pairs.foldl (buildStep fs) acc).2).map Prod.snd,
        i ∈ ((pairs.foldl (buildStep fs) acc).1).map Prod.fst := by
  intro pairs
  induction pairs with
  | nil => intro acc hacc i hi; exact hacc i hi
  | cons pr rest ih =>
    intro acc hacc i hi
    rw [List.foldl_cons] at hi ⊢
    refine ih (buildStep fs acc pr) ?_ i hi
    intro j hj
    simp only [buildStep] at hj ⊢
    have hkey : pr.2 ∈ (objInsert acc.1 pr.2
        (⟨fs pr.1, "100", "100", pr.1, [], []⟩ : ProgModule)).map Prod.fst := by
      rw [objInsert_fst]
      by_cases hmem : pr.2 ∈ acc.1.map Prod.fst
      · rw [if_pos hmem]; exact hmem
      · rw [if_neg hmem]; simp
    have hold : ∀ x, x ∈ acc.1.map Prod.fst →
        x ∈ (objInsert acc.1 pr.2
          (⟨fs pr.1, "100", "100", pr.1, [], []⟩ : ProgModule)).map Prod.fst := by
      intro x hx
      rw [objInsert_fst]
      by_cases hmem : pr.2 ∈ acc.1.map Prod.fst
      · rw [if_pos hmem]; exact hx
      · rw [if_neg hmem]; simp [hx]
    match hname : matchVarName (fs pr.1) with
    | none =>
      rw [hname] at hj
      exact hold j (hacc j hj)
    | some nm =>
      rw [hname] at hj
      simp only [List.mem_map] at hj
      obtain ⟨e, he, hej⟩ := hj
      rcases objInsert_mem _ _ _ _ he with h | h
      · exact hold j (hacc j (hej ▸ List.mem_map_of_mem Prod.snd h))
      · rw [h] at hej
        rw [← hej]
        exact hkey

/-- With fresh, pairwise-distinct ids the module loop appends one entry per
path, in order. -/
theorem buildFold_append (fs : String → String) :
    ∀ (pairs : List (String × String))
      (acc : List (String × ProgModule) × List (String × String)),
      (∀ pr ∈ pairs, pr.2 ∉ acc.1.map Prod.fst) →
      (pairs.map Prod.snd).Nodup →
      (pairs.foldl (buildStep fs) acc).1 =
        acc.1 ++ pairs.map (fun pr => (pr.2, ⟨fs pr.1, "100", "100", pr.1, [], []⟩)) := by
  intro pairs
  induction pairs with
  | nil => intro acc _ _; simp
  | cons pr rest ih =>
    intro acc hfresh hnodup
    simp only [List.map_cons, List.nodup_cons] at hnodup
    rw [List.foldl_cons]
    have hstep : (buildStep fs acc pr).1 = acc.1 ++ [(pr.2, ⟨fs pr.1, "100", "100", pr.1, [], []⟩)] := by
      unfold buildStep
      exact objInsert_fresh _ _ _ (hfresh pr (List.mem_cons_self _ _))
    have hfresh' : ∀ q ∈ rest, q.2 ∉ (buildStep fs acc pr).1.map Prod.fst := by
      intro q hq hmem
      rw [hstep] at hmem
      simp only [List.map_append, List.mem_append, List.map_cons, List.map_nil,
        List.mem_singleton] at hmem
      rcases hmem with h | h
      · exact hfresh q (List.mem_cons_of_mem _ hq) h
      · have : q.2 ∈ rest.map Prod.snd := List.mem_map_of_mem Prod.snd hq
        exact hnodup.1 (h ▸ this)
    rw [ih (buildStep fs acc pr) hfresh' hnodup.2, hstep]
    simp

theorem withIds_length (idSupply : Nat → String) :
    ∀ (paths : List String) (i : Nat), (withIds idSupply paths i).length = paths.length := by
  intro paths
  induction paths with
  | nil => intro i; rfl
  | cons p rest ih => intro i; simp [withIds, ih]

theorem withIds_fst (idSupply : Nat → String) :
    ∀ (paths : List String) (i : Nat), (withIds idSupply paths i).map Prod.fst = paths := by
  intro paths
  induction paths with
  | nil => intro i; rfl
  | cons p rest ih => intro i; simp [withIds, ih]

theorem withIds_mem (idSupply : Nat → String) :
    ∀ (paths : List String) (i : Nat) (pr : String × String),
      pr ∈ withIds idSupply paths i →
      ∃ j, i ≤ j ∧ j < i + paths.length ∧ pr.2 = idSupply j ∧ pr.1 ∈ paths := by
  intro paths
  induction paths with
  | nil => intro i pr h; simp [withIds] at h
  | cons p rest ih =>
    intro i pr h
    rw [withIds] at h
    rcases List.mem_cons.mp h with h | h
    · exact ⟨i, le_refl i, by simp, by rw [h], by rw [h]; simp⟩
    · obtain ⟨j, hj1, hj2, hj3, hj4⟩ := ih (i + 1) pr h
      exact ⟨j, by omega, by simp; omega, hj3, List.mem_cons_of_mem _ hj4⟩

theorem withIds_snd_nodup (idSupply : Nat → String) :
    ∀ (paths : List String) (i : Nat),
      (∀ j k, i ≤ j → j < i + paths.length → i ≤ k → k < i + paths.length → j ≠ k →
        idSupply j ≠ idSupply k) →
      ((withIds idSupply paths i).map Prod.snd).Nodup := by
  intro paths
  induction paths with
  | nil => intro i _; simp [withIds]
  | cons p rest ih =>
    intro i hinj
    rw [withIds]
    simp only [List.map_cons, List.nodup_cons]
    constructor
    · intro hmem
      simp only [List.mem_map] at hmem
      obtain ⟨pr, hpr, hpr2⟩ := hmem
      obtain ⟨j, hj1, hj2, hj3, _⟩ := withIds_mem idSupply rest (i + 1) pr hpr
      have : idSupply j ≠ idSupply i := by
        refine hinj j i (by omega) (by simp at hj2 ⊢; omega) (by omega) (by simp) (by omega)
      exact this (hj3 ▸ hpr2)
    · refine ih (i + 1) ?_
      intro j k hj1 hj2 hk1 hk2 hjk
      exact hinj j k (by omega) (by simp at hj2 ⊢; omega) (by omega)
        (by simp at hk2 ⊢; omega) hjk

/-! ## Lemmas about link encoding within a build -/

theorem encodeLinks_ok_forall (nameToId : List (String × String)) :
    ∀ (links : List BuildLink) (ls : List String),
      encodeLinks nameToId links = .ok ls →
      ∀ l ∈ links, ∃ s, resolveLink nameToId l = .ok s := by
  intro links
  induction links with
  | nil => intro ls _ l hl; simp at hl
  | cons l0 rest ih =>
    intro ls hok l hl
    rw [encodeLinks] at hok
    match hr : resolveLink nameToId l0 with
    | .error e => rw [hr] at hok; cases hok
    | .ok s0 =>
      rw [hr] at hok
      match he : encodeLinks nameToId rest with
      | .error e => rw [he] at hok; cases hok
      | .ok ss =>
        rcases List.mem_cons.mp hl with h | h
        · exact ⟨s0, h ▸ hr⟩
        · exact ih ss he l h

theorem encodeLinks_map_decode (nameToId : List (String × String)) :
    ∀ (links : List BuildLink) (ls : List String),
      encodeLinks nameToId links = .ok ls →
      ls.map decodeLink = links.map (connOfLink nameToId) := by
  intro links
  induction links with
  | nil =>
    intro ls hok
    rw [encodeLinks] at hok
    cases hok
    rfl
  | cons l0 rest ih =>
    intro ls hok
    rw [encodeLinks] at hok
    match hr : resolveLink nameToId l0 with
    | .error e => rw [hr] at hok; cases hok
    | .ok s0 =>
      rw [hr] at hok
      match he : encodeLinks nameToId rest with
      | .error e => rw [he] at hok; cases hok
      | .ok ss =>
        rw [he] at hok
        cases hok
        simp only [List.map_cons]
        rw [decodeLink_resolveLink nameToId l0 s0 hr, ih ss he]

theorem resolveLink_ok_lookups (nameToId : List (String × String)) (l : BuildLink)
    (s : String) (h : resolveLink nameToId l = .ok s) :
    ∃ sid did, List.lookup (partModule l.fromSpec) nameToId = some sid ∧
      List.lookup (partModule l.toSpec) nameToId = some did ∧ sid ≠ "" ∧ did ≠ "" := by
  unfold resolveLink at h
  by_cases hf : (jsFalsy (List.lookup (partModule l.fromSpec) nameToId) ||
      jsFalsy (List.lookup (partModule l.toSpec) nameToId)) = true
  · rw [if_pos hf] at h; cases h
  · rw [if_neg hf] at h
    simp only [Bool.or_eq_true, not_or] at hf
    obtain ⟨hf1, hf2⟩ := hf
    match hsrc : List.lookup (partModule l.fromSpec) nameToId with
    | none => rw [hsrc] at hf1; simp [jsFalsy] at hf1
    | some sid =>
      match hdst : List.lookup (partModule l.toSpec) nameToId with
      | none => rw [hdst] at hf2; simp [jsFalsy] at hf2
      | some did =>
        rw [hsrc] at hf1
        rw [hdst] at hf2
        simp only [jsFalsy, Bool.not_eq_true, decide_eq_false_iff_not] at hf1 hf2
        exact ⟨sid, did, rfl, rfl, hf1, hf2⟩

theorem resolveLink_ok_shape (nameToId : List (String × String)) (l : BuildLink)
    (s : String) (h : resolveLink nameToId l = .ok s) :
    ∃ sid did, List.lookup (partModule l.fromSpec) nameToId = some sid ∧
      List.lookup (partModule l.toSpec) nameToId = some did ∧
      s = encodeLinkStr sid (partPort l.fromSpec) did (partPort l.toSpec) := by
  obtain ⟨sid, did, hsrc, hdst, _, _⟩ := resolveLink_ok_lookups nameToId l s h
  refine ⟨sid, did, hsrc, hdst, ?_⟩
  unfold resolveLink at h
  by_cases hf : (jsFalsy (List.lookup (partModule l.fromSpec) nameToId) ||
      jsFalsy (List.lookup (partModule l.toSpec) nameToId)) = true
  · rw [if_pos hf] at h; cases h
  · rw [if_neg hf] at h
    rw [hsrc, hdst] at h
    cases h
    rfl

/-- Equality on build results is decidable (used by concrete witnesses). -/
instance {ε α : Type} [DecidableEq ε] [DecidableEq α] : DecidableEq (Except ε α) :=
  fun a b =>
    match a, b with
    | .error e, .error f =>
      if h : e = f then isTrue (by rw [h]) else isFalse (fun hc => h (Except.error.inj hc))
    | .ok x, .ok y =>
      if h : x = y then isTrue (by rw [h]) else isFalse (fun hc => h (Except.ok.inj hc))
    | .error _, .ok _ => isFalse (fun hc => Except.noConfusion hc)
    | .ok _, .error _ => isFalse (fun hc => Except.noConfusion hc)

/-- Extract the components of a successful build. -/
theorem createProgram_ok (fs : String → String) (idSupply : Nat → String)
    (paths : List String) (links : List BuildLink) (doc : ProgramDoc)
    (hok : createProgram fs idSupply paths links = .ok doc) :
    doc.modules = (buildModules fs idSupply paths).1 ∧
    encodeLinks (buildModules fs idSupply paths).2 links = .ok doc.links := by
  simp only [createProgram] at hok
  match he : encodeLinks (buildModules fs idSupply paths).2 links with
  | .error e => rw [he] at hok; cases hok
  | .ok ls =>
    rw [he] at hok
    injection hok with h
    subst h
    exact ⟨rfl, rfl⟩

/-- A fractional-number id string `0.<digits>`. -/
def isFracIdB (s : String) : Bool :=
  match s.data with
  | '0' :: '.' :: tl => !tl.isEmpty && tl.all Char.isDigit
  | _ => false

theorem encodeLinks_error_first (nameToId : List (String × String)) (l : BuildLink)
    (post : List BuildLink)
    (hbad : (jsFalsy (List.lookup (partModule l.fromSpec) nameToId) ||
      jsFalsy (List.lookup (partModule l.toSpec) nameToId)) = true) :
    ∀ pre : List BuildLink,
      (∀ l' ∈ pre, ∃ s, resolveLink nameToId l' = .ok s) →
      encodeLinks nameToId (pre ++ l :: post) =
        .error ("Module not found in link: " ++
          (if jsFalsy (List.lookup (partModule l.fromSpec) nameToId)
           then partModule l.fromSpec else partModule l.toSpec)) := by
  intro pre
  induction pre with
  | nil =>
    intro _
    rw [List.nil_append, encodeLinks]
    have hres : resolveLink nameToId l =
        .error ("Module not found in link: " ++
          (if jsFalsy (List.lookup (partModule l.fromSpec) nameToId)
           then partModule l.fromSpec else partModule l.toSpec)) := by
      unfold resolveLink
      rw [if_pos hbad]
    rw [hres]
  | cons l' pre' ih =>
    intro hpre
    obtain ⟨s, hs⟩ := hpre l' (List.mem_cons_self _ _)
    rw [List.cons_append, encodeLinks, hs,
      ih (fun q hq => hpre q (List.mem_cons_of_mem _ hq))]

/-- C3: a link whose source or destination module name does not resolve fails
the whole build with an error naming the unresolved side (source first), and
no document is returned.  `pre` is the prefix of resolvable links processed
before the offending one. -/
theorem createProgram_unresolvedLink (fs : String → String) (idSupply : Nat → String)
    (paths : List String) (pre post : List BuildLink) (l : BuildLink)
    (hpre : ∀ l' ∈ pre,
      ∃ s, resolveLink (buildModules fs idSupply paths).2 l' = .ok s)
    (hbad : (jsFalsy (List.lookup (partModule l.fromSpec) (buildModules fs idSupply paths).2) ||
      jsFalsy (List.lookup (partModule l.toSpec) (buildModules fs idSupply paths).2)) = true) :
    createProgram fs idSupply paths (pre ++ l :: post) =
      .error ("Module not found in link: " ++
        (if jsFalsy (List.lookup (partModule l.fromSpec) (buildModules fs idSupply paths).2)
         then partModule l.fromSpec else partModule l.toSpec)) := by
  simp only [createProgram]
  rw [encodeLinks_error_first (buildModules fs idSupply paths).2 l post hbad pre hpre]

/-- C3 witness: with a single module declaring name `B`, a link from `A.out`
fails the whole build naming `A` (the unresolved source side), not `B`. -/
theorem createProgram_unresolvedLink_witness :
    createProgram (fun _ => "var name = 'B'") (fun _ => "0.5") ["p"]
      [⟨"A.out", "B.in"⟩] = .error "Module not found in link: A" := by
  have h := createProgram_unresolvedLink (fun _ => "var name = 'B'") (fun _ => "0.5")
    ["p"] [] [] ⟨"A.out", "B.in"⟩ (by simp) (by decide)
  rw [List.nil_append] at h
  rw [h]
  congr 1

/-- Module-map keys stay duplicate-free across the loop. -/
theorem buildFold_keys_nodup (fs : String → String) :
    ∀ (pairs : List (String × String))
      (acc : List (String × ProgModule) × List (String × String)),
      (acc.1.map Prod.fst).Nodup →
      ((pairs.foldl (buildStep fs) acc).1.map Prod.fst).Nodup := by
  intro pairs
  induction pairs with
  | nil => intro acc h; exact h
  | cons pr rest ih =>
    intro acc h
    rw [List.foldl_cons]
    exact ih (buildStep fs acc pr) (objInsert_fst_nodup _ _ _ h)

/-- C9: under the id-supply contract (fresh, pairwise-distinct
fractional-number strings — the behaviour `Math.random().toString()` is relied
on for), a successful build stores exactly one entry per given module path,
in order, each under its own fresh fractional id. -/
theorem createProgram_freshIds (fs : String → String) (idSupply : Nat → String)
    (paths : List String) (links : List BuildLink) (doc : ProgramDoc)
    (hok : createProgram fs idSupply paths links = .ok doc)
    (hinj : ∀ j, j < paths.length → ∀ k, k < paths.length → j ≠ k →
      idSupply j ≠ idSupply k)
    (hfrac : ∀ i, i < paths.length → isFracIdB (idSupply i) = true) :
    doc.modules = (withIds idSupply paths 0).map
      (fun pr => (pr.2, ⟨fs pr.1, "100", "100", pr.1, [], []⟩)) ∧
    (doc.modules.map Prod.fst).Nodup ∧
    (∀ e ∈ doc.modules, isFracIdB e.1 = true) ∧
    doc.modules.length = paths.length ∧
    doc.modules.map (fun e => e.2.filename) = paths := by
  obtain ⟨hmods, -⟩ := createProgram_ok fs idSupply paths links doc hok
  have hsnd : ((withIds idSupply paths 0).map Prod.snd).Nodup := by
    refine withIds_snd_nodup idSupply paths 0 ?_
    intro j k hj1 hj2 hk1 hk2 hjk
    exact hinj j (by omega) k (by omega) hjk
  have happ : doc.modules = (withIds idSupply paths 0).map
      (fun pr => (pr.2, ⟨fs pr.1, "100", "100", pr.1, [], []⟩)) := by
    rw [hmods]
    unfold buildModules
    rw [buildFold_append fs (withIds idSupply paths 0) ([], []) (by simp) hsnd]
    simp
  refine ⟨happ, ?_, ?_, ?_, ?_⟩
  · rw [happ, List.map_map]
    have : (Prod.fst ∘ fun pr : String × String =>
        ((pr.2, ⟨fs pr.1, "100", "100", pr.1, [], []⟩) : String × ProgModule)) = Prod.snd := by
      funext pr; rfl
    rw [this]
    exact hsnd
  · intro e he
    rw [happ] at he
    simp only [List.mem_map] at he
    obtain ⟨pr, hpr, hpre⟩ := he
    obtain ⟨j, hj0, hjlen, hjid, -⟩ := withIds_mem idSupply paths 0 pr hpr
    rw [← hpre]
    simpa [hjid] using hfrac j (by omega)
  · rw [happ]
    simp [withIds_length]
  · rw [happ, List.map_map]
    have : ((fun e : String × ProgModule => e.2.filename) ∘ fun pr : String × String =>
        ((pr.2, ⟨fs pr.1, "100", "100", pr.1, [], []⟩) : String × ProgModule)) = Prod.fst := by
      funext pr; rfl
    rw [this]
    exact withIds_fst idSupply paths 0

/-- C9 witness at a concrete two-module build. -/
theorem createProgram_freshIds_witness :
    ∃ doc, createProgram (fun _ => "x")
        (fun i => if i = 0 then "0.12" else "0.34") ["a", "b"] [] = .ok doc ∧
      (doc.modules.map Prod.fst).Nodup ∧
      (∀ e ∈ doc.modules, isFracIdB e.1 = true) ∧
      doc.modules.length = 2 ∧
      doc.modules.map (fun e => e.2.filename) = ["a", "b"] := by
  have hok : createProgram (fun _ => "x")
      (fun i => if i = 0 then "0.12" else "0.34") ["a", "b"] [] =
      .ok ⟨[("0.12", ⟨"x", "100", "100", "a", [], []⟩),
            ("0.34", ⟨"x", "100", "100", "b", [], []⟩)], []⟩ := by decide
  have h := createProgram_freshIds (fun _ => "x")
    (fun i => if i = 0 then "0.12" else "0.34") ["a", "b"] [] _ hok
    (by decide) (by decide)
  exact ⟨_, hok, h.2.1, h.2.2.1, h.2.2.2.1, h.2.2.2.2⟩

theorem encodeLinks_mem (nameToId : List (String × String)) :
    ∀ (links : List BuildLink) (ls : List String),
      encodeLinks nameToId links = .ok ls →
      ∀ s ∈ ls, ∃ l ∈ links, resolveLink nameToId l = .ok s := by
  intro links
  induction links with
  | nil =>
    intro ls hok s hs
    rw [encodeLinks] at hok
    cases hok
    simp at hs
  | cons l0 rest ih =>
    intro ls hok s hs
    rw [encodeLinks] at hok
    match hr : resolveLink nameToId l0 with
    | .error e => rw [hr] at hok; cases hok
    | .ok s0 =>
      rw [hr] at hok
      match he : encodeLinks nameToId rest with
      | .error e => rw [he] at hok; cases hok
      | .ok ss =>
        rw [he] at hok
        injection hok with h
        subst h
        rcases List.mem_cons.mp hs with h | h
        · exact ⟨l0, List.mem_cons_self _ _, h ▸ hr⟩
        · obtain ⟨l, hl, hres⟩ := ih ss he s h
          exact ⟨l, List.mem_cons_of_mem _ hl, hres⟩

theorem stringifyFlatObj_ne_empty (kvs : List (String × String)) :
    stringifyFlatObj kvs ≠ "" := by
  intro h
  have hd := congrArg String.data h
  simp [stringifyFlatObj] at hd

/-- C2: every link of a successful build (over link specs in the declared
`"moduleName.portName"` shape) is a JSON string parsing to a `source`/`dest`
pair of JSON strings that parse to `id`/`type`/`name` records with type
`outputs` on the source side and `inputs` on the dest side, and every
inner-decoded id is a key of the returned modules map. -/
theorem createProgram_linkShape (fs : String → String) (idSupply : Nat → String)
    (paths : List String) (links : List BuildLink) (doc : ProgramDoc)
    (hok : createProgram fs idSupply paths links = .ok doc)
    (hdots : ∀ l ∈ links, (partPort l.fromSpec).isSome ∧ (partPort l.toSpec).isSome) :
    ∀ s ∈ doc.links, ∃ srcStr dstStr sid sp did dp,
      jsonParseFlat s = some [("source", srcStr), ("dest", dstStr)] ∧
      jsonParseFlat srcStr = some [("id", sid), ("type", "outputs"), ("name", sp)] ∧
      jsonParseFlat dstStr = some [("id", did), ("type", "inputs"), ("name", dp)] ∧
      sid ∈ doc.modules.map Prod.fst ∧ did ∈ doc.modules.map Prod.fst := by
  obtain ⟨hmods, hlinks⟩ := createProgram_ok fs idSupply paths links doc hok
  intro s hs
  obtain ⟨l, hl, hres⟩ := encodeLinks_mem _ links doc.links hlinks s hs
  obtain ⟨sid, did, hsrc, hdst, hshape⟩ := resolveLink_ok_shape _ l s hres
  obtain ⟨sp, hsp⟩ := Option.isSome_iff_exists.mp (hdots l hl).1
  obtain ⟨dp, hdp⟩ := Option.isSome_iff_exists.mp (hdots l hl).2
  have hkey : ∀ v, v ∈ (buildModules fs idSupply paths).2.map Prod.snd →
      v ∈ doc.modules.map Prod.fst := by
    intro v hv
    rw [hmods]
    unfold buildModules at hv ⊢
    exact buildFold_names_sub fs (withIds idSupply paths 0) ([], []) (by simp) v hv
  refine ⟨stringifyInner sid "outputs" (some sp), stringifyInner did "inputs" (some dp),
    sid, sp, did, dp, ?_, ?_, ?_, ?_, ?_⟩
  · rw [hshape, hsp, hdp]
    unfold encodeLinkStr
    exact jsonParseFlat_stringifyFlatObj _
  · unfold stringifyInner
    exact jsonParseFlat_stringifyFlatObj _
  · unfold stringifyInner
    exact jsonParseFlat_stringifyFlatObj _
  · exact hkey sid (lookup_mem_snd _ _ _ hsrc)
  · exact hkey did (lookup_mem_snd _ _ _ hdst)

/-- C2 witness at a concrete two-module, one-link build. -/
theorem createProgram_linkShape_witness :
    ∃ doc, createProgram
        (fun p => if p = "m1" then "var name = 'genevent'" else "var name = 'label'")
        (fun i => if i = 0 then "0.111" else "0.222") ["m1", "m2"]
        [⟨"genevent.output", "label.text"⟩] = .ok doc ∧
      ∀ s ∈ doc.links, ∃ srcStr dstStr sid sp did dp,
        jsonParseFlat s = some [("source", srcStr), ("dest", dstStr)] ∧
        jsonParseFlat srcStr = some [("id", sid), ("type", "outputs"), ("name", sp)] ∧
        jsonParseFlat dstStr = some [("id", did), ("type", "inputs"), ("name", dp)] ∧
        sid ∈ doc.modules.map Prod.fst ∧ did ∈ doc.modules.map Prod.fst := by
  have hok : createProgram
      (fun p => if p = "m1" then "var name = 'genevent'" else "var name = 'label'")
      (fun i => if i = 0 then "0.111" else "0.222") ["m1", "m2"]
      [⟨"genevent.output", "label.text"⟩] =
      .ok ⟨[("0.111", ⟨"var name = 'genevent'", "100", "100", "m1", [], []⟩),
            ("0.222", ⟨"var name = 'label'", "100", "100", "m2", [], []⟩)],
           [encodeLinkStr "0.111" (some "output") "0.222" (some "text")]⟩ := by decide
  exact ⟨_, hok, createProgram_linkShape _ _ _ _ _ hok (by decide)⟩

/-! ## The extract side (C1): rendering a document and reading it back -/

/-- Modelled from the spec: the host runtime (out of scope for the sources,
§1/§4.2) renders each entry of a Program Document's `modules` map as a child
of the `#modules` container whose element id is the entry's key and whose
`data-*` attributes carry the entry's fields, and each element of `links` as a
connection-overlay entry whose identifier is that string. -/
def nodeOfEntry (e : String × ProgModule) : ModuleNode :=
  { id := e.1
  , dataName := none
  , dataDefinition := some e.2.definition
  , dataTop := some e.2.top
  , dataLeft := some e.2.left
  , dataFilename := some e.2.filename
  , inputs := []
  , buttons := [] }

/-- Modelled from the spec: the page showing a loaded Program Document. -/
def pageOfDoc (doc : ProgramDoc) : Page :=
  { modulesContainer := some (doc.modules.map nodeOfEntry)
  , svgLinks := some doc.links }

theorem extractEntry_nodeOf (e : String × ProgModule)
    (htop : e.2.top ≠ "") (hleft : e.2.left ≠ "")
    (hin : e.2.inputs = []) (hout : e.2.outputs = []) :
    extractEntry (nodeOfEntry e) = e.2 := by
  obtain ⟨k, m⟩ := e
  obtain ⟨d, t, lf, fn, inp, outp⟩ := m
  simp only at htop hleft hin hout
  subst hin
  subst hout
  simp only [extractEntry, nodeOfEntry, jsOrStr, ProgModule.mk.injEq]
  refine ⟨?_, ?_, ?_, ?_, trivial, trivial⟩
  · by_cases hd : d = ""
    · rw [if_pos hd, hd]
    · rw [if_neg hd]
  · rw [if_neg htop]
  · rw [if_neg hleft]
  · by_cases hf : fn = ""
    · rw [if_pos hf, hf]
    · rw [if_neg hf]

theorem extract_rebuild :
    ∀ (l : List (String × ProgModule)) (acc : List (String × ProgModule)),
      (∀ e ∈ l, e.1 ∉ acc.map Prod.fst) →
      (l.map Prod.fst).Nodup →
      (∀ e ∈ l, e.1 ≠ "" ∧ e.2.top ≠ "" ∧ e.2.left ≠ "" ∧
        e.2.inputs = [] ∧ e.2.outputs = []) →
      (l.map nodeOfEntry).foldl
        (fun acc n => if n.id = "" then acc else objInsert acc n.id (extractEntry n))
        acc = acc ++ l := by
  intro l
  induction l with
  | nil => intro acc _ _ _; simp
  | cons e rest ih =>
    intro acc hfresh hnodup hprops
    simp only [List.map_cons, List.nodup_cons] at hnodup
    simp only [List.map_cons, List.foldl_cons]
    obtain ⟨hid, htop, hleft, hin, hout⟩ := hprops e (List.mem_cons_self _ _)
    have hstep : (if (nodeOfEntry e).id = "" then acc
        else objInsert acc (nodeOfEntry e).id (extractEntry (nodeOfEntry e))) =
        acc ++ [e] := by
      rw [if_neg (show ¬ (nodeOfEntry e).id = "" from hid)]
      rw [show (nodeOfEntry e).id = e.1 from rfl]
      rw [extractEntry_nodeOf e htop hleft hin hout]
      rw [objInsert_fresh _ _ _ (hfresh e (List.mem_cons_self _ _))]
    rw [hstep]
    rw [ih (acc ++ [e]) ?_ hnodup.2
      (fun q hq => hprops q (List.mem_cons_of_mem _ hq))]
    · simp
    · intro q hq hmem
      simp only [List.map_append, List.mem_append] at hmem
      rcases hmem with h | h
      · exact hfresh q (List.mem_cons_of_mem _ hq) h
      · simp only [List.map_cons, List.map_nil, List.mem_singleton] at h
        exact hnodup.1 (h ▸ List.mem_map_of_mem Prod.fst hq)

theorem extract_pageOfDoc (doc : ProgramDoc)
    (hnodup : (doc.modules.map Prod.fst).Nodup)
    (hprops : ∀ e ∈ doc.modules, e.1 ≠ "" ∧ e.2.top ≠ "" ∧ e.2.left ≠ "" ∧
      e.2.inputs = [] ∧ e.2.outputs = [])
    (hlinks : ∀ s ∈ doc.links, s ≠ "") :
    extractProgramState (pageOfDoc doc) = some doc := by
  simp only [extractProgramState, pageOfDoc]
  rw [extract_rebuild doc.modules [] (by simp) hnodup hprops]
  rw [List.filter_eq_self.mpr (by intro a ha; simpa using hlinks a ha)]
  simp

/-- C1: for every successful build over link specs in the declared
`"moduleName.portName"` shape (with the ids supplied to the build truthy),
extracting the persisted form of the rendered document returns the document
itself, and decoding every produced link string recovers exactly the encoded
connection tuples, one per input link in order. -/
theorem createProgram_roundTrip (fs : String → String) (idSupply : Nat → String)
    (paths : List String) (links : List BuildLink) (doc : ProgramDoc)
    (hok : createProgram fs idSupply paths links = .ok doc)
    (hids : ∀ i, i < paths.length → idSupply i ≠ "")
    (hdots : ∀ l ∈ links, (partPort l.fromSpec).isSome ∧ (partPort l.toSpec).isSome) :
    extractProgramState (pageOfDoc doc) = some doc ∧
    doc.links.map decodeLink =
      links.map (connOfLink (buildModules fs idSupply paths).2) ∧
    (∀ l ∈ links, (connOfLink (buildModules fs idSupply paths).2 l).isSome) := by
  obtain ⟨hmods, hlinks⟩ := createProgram_ok fs idSupply paths links doc hok
  have hnodup : (doc.modules.map Prod.fst).Nodup := by
    rw [hmods]
    unfold buildModules
    exact buildFold_keys_nodup fs _ ([], []) (by simp)
  have hprops : ∀ e ∈ doc.modules, e.1 ≠ "" ∧ e.2.top ≠ "" ∧ e.2.left ≠ "" ∧
      e.2.inputs = [] ∧ e.2.outputs = [] := by
    rw [hmods]
    unfold buildModules
    refine buildFold_entries fs _ (withIds idSupply paths 0) ([], []) (by simp) ?_
    intro pr hpr
    obtain ⟨j, hj0, hjl, hjid, -⟩ := withIds_mem idSupply paths 0 pr hpr
    refine ⟨?_, by simp, by simp, rfl, rfl⟩
    simpa [hjid] using hids j (by omega)
  have hlinkne : ∀ s ∈ doc.links, s ≠ "" := by
    intro s hs
    obtain ⟨l, hl, hres⟩ := encodeLinks_mem _ links doc.links hlinks s hs
    obtain ⟨sid, did, -, -, hshape⟩ := resolveLink_ok_shape _ l s hres
    rw [hshape]
    unfold encodeLinkStr
    exact stringifyFlatObj_ne_empty _
  refine ⟨extract_pageOfDoc doc hnodup hprops hlinkne, ?_, ?_⟩
  · exact encodeLinks_map_decode _ links doc.links hlinks
  · intro l hl
    obtain ⟨s, hres⟩ := encodeLinks_ok_forall _ links doc.links hlinks l hl
    obtain ⟨sid, did, hsrc, hdst, -, -⟩ := resolveLink_ok_lookups _ l s hres
    obtain ⟨sp, hsp⟩ := Option.isSome_iff_exists.mp (hdots l hl).1
    obtain ⟨dp, hdp⟩ := Option.isSome_iff_exists.mp (hdots l hl).2
    unfold connOfLink
    rw [hsrc, hdst, hsp, hdp]
    rfl

/-- C1 witness at a concrete two-module, one-link build. -/
theorem createProgram_roundTrip_witness :
    ∃ doc, createProgram
        (fun p => if p = "m1" then "var name = 'genevent'" else "var name = 'label'")
        (fun i => if i = 0 then "0.111" else "0.222") ["m1", "m2"]
        [⟨"genevent.output", "label.text"⟩] = .ok doc ∧
      extractProgramState (pageOfDoc doc) = some doc ∧
      doc.links.map decodeLink = [some ⟨"0.111", "output", "0.222", "text"⟩] := by
  have hok : createProgram
      (fun p => if p = "m1" then "var name = 'genevent'" else "var name = 'label'")
      (fun i => if i = 0 then "0.111" else "0.222") ["m1", "m2"]
      [⟨"genevent.output", "label.text"⟩] =
      .ok ⟨[("0.111", ⟨"var name = 'genevent'", "100", "100", "m1", [], []⟩),
            ("0.222", ⟨"var name = 'label'", "100", "100", "m2", [], []⟩)],
           [encodeLinkStr "0.111" (some "output") "0.222" (some "text")]⟩ := by decide
  have h := createProgram_roundTrip
    (fun p => if p = "m1" then "var name = 'genevent'" else "var name = 'label'")
    (fun i => if i = 0 then "0.111" else "0.222") ["m1", "m2"]
    [⟨"genevent.output", "label.text"⟩] _ hok (by decide) (by decide)
  refine ⟨_, hok, h.1, ?_⟩
  rw [h.2.1]
  decide

/-- C10: with no modules container, the session state read returns the empty
sequence while the persisted-form decode returns null — the two public
operations treat the absent container differently. -/
theorem absentContainer_divergence (page : Page)
    (h : page.modulesContainer = none) :
    getProgramState page = [] ∧ extractProgramState page = none := by
  constructor
  · unfold getProgramState
    rw [h]
  · unfold extractProgramState
    rw [h]

/-- C10 witness: a completely empty page. -/
theorem absentContainer_divergence_witness :
    getProgramState ⟨none, none⟩ = [] ∧ extractProgramState ⟨none, none⟩ = none :=
  absentContainer_divergence ⟨none, none⟩ rfl

/-- Every parameter of a reported module comes from `readParam` on one of the
module's controls. -/
theorem getProgramState_param_src (page : Page) (m : ModuleState) (p : Param)
    (hm : m ∈ getProgramState page) (hp : p ∈ m.params) :
    ∃ ctl : InputCtl, p = readParam ctl := by
  unfold getProgramState at hm
  match hc : page.modulesContainer with
  | none => rw [hc] at hm; simp at hm
  | some container =>
    rw [hc] at hm
    simp only [List.mem_filterMap] at hm
    obtain ⟨n, hn, hcond⟩ := hm
    by_cases hid : n.id = ""
    · rw [if_pos hid] at hcond; cases hcond
    · rw [if_neg hid] at hcond
      injection hcond with h
      subst h
      obtain ⟨ctl, -, hctl⟩ := List.mem_map.mp (by simpa [moduleStateOf] using hp)
      exact ⟨ctl, hctl.symm⟩

/-- C5: every checkbox-kind parameter read from a session reports exactly
`"true"` or `"false"`, derived from the checked-state; in particular a
checkbox with raw value `"on"` and checked-state false reads `"false"`. -/
theorem checkbox_reads_checkedState :
    (∀ (page : Page) (m : ModuleState) (p : Param),
      m ∈ getProgramState page → p ∈ m.params → p.type = "checkbox" →
      (p.value = "true" ∨ p.value = "false")) ∧
    (∀ ctl : InputCtl, ctl.type = "checkbox" →
      (readParam ctl).value = (if ctl.checked then "true" else "false")) ∧
    (readParam ⟨"checkbox", "on", false, none⟩).value = "false" := by
  refine ⟨?_, ?_, rfl⟩
  · intro page m p hm hp ht
    obtain ⟨ctl, hctl⟩ := getProgramState_param_src page m p hm hp
    subst hctl
    unfold readParam at ht ⊢
    by_cases hc : ctl.type = "checkbox"
    · rw [if_pos hc]
      by_cases hch : ctl.checked
      · left; simp [hch]
      · right; simp [hch]
    · rw [if_neg hc] at ht
      exact absurd ht hc
  · intro ctl hc
    unfold readParam
    rw [if_pos hc]

/-- C5 witness: a page with one checkbox whose raw value is `"on"` but whose
checked-state is false reads `"false"`. -/
theorem checkbox_reads_checkedState_witness :
    (∀ p ∈ (getProgramState ⟨some [⟨"0.1", some "mod", none, none, none, none,
        [⟨"checkbox", "on", false, some "invert"⟩], []⟩], none⟩).flatMap
          ModuleState.params,
      p.type = "checkbox" → (p.value = "true" ∨ p.value = "false")) ∧
    (readParam ⟨"checkbox", "on", false, none⟩).value = "false" := by
  refine ⟨?_, checkbox_reads_checkedState.2.2⟩
  intro p hp ht
  obtain ⟨m, hm, hpm⟩ := List.mem_flatMap.mp hp
  exact checkbox_reads_checkedState.1 _ m p hm hpm ht

/-- C4 (amended): a successful structural evaluation is labelled
`parseMethod = "vm"`; when the structural path throws, the result is the
pattern fallback with `parseMethod = "regex"` and the name captured by the
first `var name = "<v>"` match (default `"unknown"`); the fallback is total,
so no result ever carries `parseMethod = "failed"` for any source text. -/
theorem getModuleInfo_methods (src : String) (v : VmVal) (o : Option VmVal) :
    (getModuleInfo src (some v)).parseMethod = "vm" ∧
    (getModuleInfo src none).parseMethod = "regex" ∧
    (getModuleInfo src none).name = some ((matchVarName src).getD "unknown") ∧
    (getModuleInfo src o).parseMethod ≠ "failed" := by
  refine ⟨rfl, rfl, rfl, ?_⟩
  match o with
  | some v2 => simp [getModuleInfo]
  | none => simp [getModuleInfo]

/-- C4 counterexample: the method labels are the code's `"vm"`/`"regex"`, not
the spec's `"structural"`/`"pattern"`; the pattern fallback on a module whose
structural path throws still recovers `name = "foo"`. -/
theorem getModuleInfo_method_labels :
    (getModuleInfo "var name = \"slider\"" (some ⟨some "slider", none, none⟩)).parseMethod
      = "vm" ∧
    (getModuleInfo "var name = \"slider\"" (some ⟨some "slider", none, none⟩)).parseMethod
      ≠ "structural" ∧
    (getModuleInfo "var name = \"foo\"" none).name = some "foo" ∧
    (getModuleInfo "var name = \"foo\"" none).parseMethod = "regex" ∧
    (getModuleInfo "var name = \"foo\"" none).parseMethod ≠ "pattern" := by
  refine ⟨rfl, by decide, by decide, rfl, by decide⟩

/-- C8 (amended): module-lookup-by-name failures enumerate the available
module names and button-lookup failures enumerate the module's button texts;
but lookup-by-id and parameter-label failures only report the requested
id/label and module context, with no list of alternatives. -/
theorem lookupErrors (state : List ModuleState) (container : List ModuleNode) :
    (∀ name : String,
      state.find? (fun m => jsIncludes (jsToLower m.name) (jsToLower name)) = none →
      findModule state name none =
        .error ("Module \"" ++ name ++ "\" not found. Available: " ++
          String.intercalate ", "
            ((state.map ModuleState.name).filter (fun s => s ≠ "")))) ∧
    (∀ moduleId btext mod, container.find? (fun n => n.id == moduleId) = some mod →
      mod.buttons.find? (fun b => jsIncludes (jsToLower (jsTrim b)) (jsToLower btext)) = none →
      clickModuleButton container moduleId btext =
        .buttonNotFound ("Button \"" ++ btext ++ "\" not found")
          (mod.buttons.map jsTrim)) ∧
    (∀ name mid, mid ≠ "" → state.find? (fun m => m.id == mid) = none →
      findModule state name (some mid) =
        .error ("Module with ID \"" ++ mid ++ "\" not found.")) ∧
    (∀ moduleId pname value mod, container.find? (fun n => n.id == moduleId) = some mod →
      findInputByLabel pname mod.inputs = none →
      setModuleInput container moduleId pname value =
        .paramNotFound ("Parameter \"" ++ pname ++ "\" not found in module " ++ moduleId)) := by
  refine ⟨?_, ?_, ?_, ?_⟩
  · intro name hfind
    unfold findModule
    rw [hfind]
    simp
  · intro moduleId btext mod hmod hbtn
    unfold clickModuleButton
    rw [hmod]
    simp [hbtn]
  · intro name mid hne hfind
    unfold findModule
    simp only [Option.getD_some]
    rw [if_pos (by simpa using hne), hfind]
  · intro moduleId pname value mod hmod hctl
    unfold setModuleInput
    rw [hmod]
    simp [hctl]

/-- C8 witness: each of the four lookup-failure shapes at a concrete state. -/
theorem lookupErrors_witness :
    findModule [⟨"0.5", "slider", [], [], none⟩] "nope" none =
      .error "Module \"nope\" not found. Available: slider" ∧
    clickModuleButton [⟨"0.5", some "slider", none, none, none, none, [],
      ["calculate", "view"]⟩] "0.5" "export" =
      .buttonNotFound "Button \"export\" not found" ["calculate", "view"] ∧
    findModule [⟨"0.5", "slider", [], [], none⟩] "x" (some "0.9") =
      .error "Module with ID \"0.9\" not found." ∧
    setModuleInput [⟨"0.5", some "slider", none, none, none, none,
      [⟨"text", "1", false, some "speed"⟩], []⟩] "0.5" "flow" "9" =
      .paramNotFound "Parameter \"flow\" not found in module 0.5" := by
  have h := lookupErrors [⟨"0.5", "slider", [], [], none⟩]
    [⟨"0.5", some "slider", none, none, none, none,
      [⟨"text", "1", false, some "speed"⟩], []⟩]
  have h2 := lookupErrors [⟨"0.5", "slider", [], [], none⟩]
    [⟨"0.5", some "slider", none, none, none, none, [], ["calculate", "view"]⟩]
  refine ⟨?_, ?_, ?_, ?_⟩
  · have := h.1 "nope" (by decide)
    rw [this]
    decide
  · have := h2.2.1 "0.5" "export"
      ⟨"0.5", some "slider", none, none, none, none, [], ["calculate", "view"]⟩
      (by decide) (by decide)
    rw [this]
    decide
  · exact h.2.2.1 "x" "0.9" (by decide) (by decide)
  · exact h.2.2.2 "0.5" "flow" "9"
      ⟨"0.5", some "slider", none, none, none, none,
        [⟨"text", "1", false, some "speed"⟩], []⟩ (by decide) (by decide)

/-- C8 counterexample: the by-id failure does not mention the one available
module name, and the parameter failure does not mention the one available
label — the error enumerates no alternatives in these two cases, refuting
"every lookup failure enumerates available alternatives". -/
theorem lookupErrors_counterexample :
    findModule [⟨"0.5", "slider", [], [], none⟩] "x" (some "0.9") =
      .error "Module with ID \"0.9\" not found." ∧
    jsIncludes "Module with ID \"0.9\" not found." "slider" = false ∧
    setModuleInput [⟨"0.5", some "slider", none, none, none, none,
      [⟨"text", "1", false, some "speed"⟩], []⟩] "0.5" "flow" "9" =
      .paramNotFound "Parameter \"flow\" not found in module 0.5" ∧
    jsIncludes "Parameter \"flow\" not found in module 0.5" "speed" = false := by
  decide

/-! ## Lemmas for the module-reference syntax (C6) -/

theorem infixB_of_isPrefixB (needle suf : List Char)
    (h : isPrefixB needle suf = true) : infixB needle suf = true := by
  match suf with
  | [] =>
    match needle with
    | [] => rfl
    | _ :: _ => simp [isPrefixB] at h
  | c :: rest =>
    unfold infixB
    rw [h]
    rfl

theorem infixB_append (pre needle suf : List Char)
    (h : isPrefixB needle suf = true) : infixB needle (pre ++ suf) = true := by
  induction pre with
  | nil => simpa using infixB_of_isPrefixB needle suf h
  | cons p ps ih =>
    rw [List.cons_append]
    unfold infixB
    rw [ih]
    simp

theorem splitOnChar_not_mem (c : Char) (l : List Char) (h : c ∉ l) :
    splitOnChar c l = [l] := by
  induction l with
  | nil => rfl
  | cons x xs ih =>
    unfold splitOnChar
    have hx : ¬ x = c := by
      intro he
      exact h (he ▸ List.mem_cons_self _ _)
    rw [if_neg hx, ih (fun hm => h (List.mem_cons_of_mem _ hm))]

theorem splitOnChar_append (c : Char) (a b : List Char) (ha : c ∉ a) :
    splitOnChar c (a ++ c :: b) = a :: splitOnChar c b := by
  induction a with
  | nil =>
    rw [List.nil_append]
    conv_lhs => rw [splitOnChar.eq_def]
    simp
  | cons x xs ih =>
    have hx : ¬ x = c := by
      intro he
      exact ha (he ▸ List.mem_cons_self _ _)
    rw [List.cons_append]
    conv_lhs => rw [splitOnChar.eq_def]
    simp only [if_neg hx]
    rw [ih (fun hm => ha (List.mem_cons_of_mem _ hm))]

theorem intercalate_singleton (sep s : String) :
    String.intercalate sep [s] = s := by
  unfold String.intercalate
  simp only []
  rw [String.intercalate.go.eq_def]

/-- C6: a `"<name>:<fractionalId>"` reference whose id part begins with `0.`
resolves to the module found by exact id (regardless of how many modules share
the name); a bare name resolves to the first module in container order whose
name contains it as a substring (case-insensitively), or, when none matches,
an error listing every (nonempty) live module name. -/
theorem moduleRef_resolution (state : List ModuleState) :
    (∀ (name id : String) (tl : List Char) (m : ModuleState),
      ':' ∉ name.data → ':' ∉ id.data → id.data = '0' :: '.' :: tl →
      state.find? (fun mm => mm.id == id) = some m →
      refLookup state (name ++ ":" ++ id) = .ok m) ∧
    (∀ (name : String) (m : ModuleState),
      jsIncludes name ":0." = false →
      state.find? (fun mm => jsIncludes (jsToLower mm.name) (jsToLower name)) = some m →
      refLookup state name = .ok m) ∧
    (∀ name : String,
      jsIncludes name ":0." = false →
      state.find? (fun mm => jsIncludes (jsToLower mm.name) (jsToLower name)) = none →
      refLookup state name =
        .error ("Module \"" ++ name ++ "\" not found. Available: " ++
          String.intercalate ", "
            ((state.map ModuleState.name).filter (fun s => s ≠ "")))) := by
  refine ⟨?_, ?_, ?_⟩
  · intro name id tl m hname hid hid0 hfind
    have hdata : (name ++ ":" ++ id).data = name.data ++ ':' :: id.data := by
      rw [String.data_append, String.data_append]
      simp
    have hinc : jsIncludes (name ++ ":" ++ id) ":0." = true := by
      unfold jsIncludes
      rw [hdata]
      refine infixB_append name.data _ _ ?_
      rw [hid0]
      rfl
    have hidne : id ≠ "" := by
      intro he
      rw [he] at hid0
      simp at hid0
    have hsplit : splitOnChar ':' (name ++ ":" ++ id).data = [name.data, id.data] := by
      rw [hdata, splitOnChar_append ':' name.data id.data hname,
        splitOnChar_not_mem ':' id.data hid]
    unfold refLookup parseModuleRef
    rw [hinc]
    simp only [if_true, hsplit, List.map_cons, List.map_nil, List.headD,
      List.tail_cons]
    have hmk : ∀ s : String, String.mk s.data = s := fun _ => rfl
    rw [hmk, hmk, intercalate_singleton]
    unfold findModule
    rw [if_pos (by simpa using hidne)]
    simp only [Option.getD_some]
    rw [hfind]
  · intro name m hninc hfind
    unfold refLookup parseModuleRef
    rw [hninc]
    simp only [Bool.false_eq_true, if_false]
    unfold findModule
    rw [if_neg (by simp)]
    rw [hfind]
  · intro name hninc hfind
    unfold refLookup parseModuleRef
    rw [hninc]
    simp only [Bool.false_eq_true, if_false]
    unfold findModule
    rw [if_neg (by simp)]
    rw [hfind]

/-- C6 witness: two live modules both named `on/off`; the `name:id` reference
picks the one with the exact id, the bare name picks the first in container
order, and an unknown bare name lists the available names. -/
theorem moduleRef_resolution_witness :
    refLookup [⟨"0.123", "on/off", [], [], none⟩, ⟨"0.456", "on/off", [], [], none⟩]
      "on/off:0.456" = .ok ⟨"0.456", "on/off", [], [], none⟩ ∧
    refLookup [⟨"0.123", "on/off", [], [], none⟩, ⟨"0.456", "on/off", [], [], none⟩]
      "on/off" = .ok ⟨"0.123", "on/off", [], [], none⟩ ∧
    refLookup [⟨"0.123", "on/off", [], [], none⟩, ⟨"0.456", "on/off", [], [], none⟩]
      "xyz" = .error "Module \"xyz\" not found. Available: on/off, on/off" := by
  have h := moduleRef_resolution
    [⟨"0.123", "on/off", [], [], none⟩, ⟨"0.456", "on/off", [], [], none⟩]
  refine ⟨?_, ?_, ?_⟩
  · exact h.1 "on/off" "0.456" ['4', '5', '6'] _ (by decide) (by decide) (by decide)
      (by decide)
  · exact h.2.1 "on/off" _ (by decide) (by decide)
  · have := h.2.2 "xyz" (by decide) (by decide)
    rw [this]
    decide

/-! ## Local recovery of the decoders (C7) -/

theorem filterMap_filter_of_none {α β : Type} (f : α → Option β) (p : α → Bool)
    (hp : ∀ a, p a = false → f a = none) :
    ∀ l : List α, (l.filter p).filterMap f = l.filterMap f := by
  intro l
  induction l with
  | nil => rfl
  | cons a rest ih =>
    by_cases hpa : p a = true
    · rw [List.filter_cons_of_pos hpa]
      rw [List.filterMap_cons, List.filterMap_cons, ih]
    · rw [List.filter_cons_of_neg (by simpa using hpa)]
      rw [List.filterMap_cons, hp a (by simpa using hpa), ih]

theorem getProgramState_ids (container : List ModuleNode) (conns : List LinkConn) :
    ∀ l : List ModuleNode,
      ((l.filterMap (fun n => if n.id = "" then none
        else some (moduleStateOf container conns n))).map ModuleState.id) =
      (l.filter (fun n => n.id != "")).map ModuleNode.id := by
  intro l
  induction l with
  | nil => rfl
  | cons n rest ih =>
    rw [List.filterMap_cons]
    by_cases hid : n.id = ""
    · rw [if_pos hid]
      rw [List.filter_cons_of_neg (by simp [hid])]
      exact ih
    · rw [if_neg hid]
      rw [List.filter_cons_of_pos (by simpa using hid)]
      simp only [List.map_cons, ih]
      rfl

/-- C7: an overlay entry whose identifier fails to decode contributes nothing
to the state read — filtering the overlay down to its decodable entries leaves
the whole result unchanged, and every module is still read regardless of the
overlay; the persisted-form decode yields empty `links` when the overlay is
absent and defaults missing `top`/`left` attributes to `"0"`. -/
theorem decode_localRecovery :
    (∀ page : Page,
      getProgramState page =
        getProgramState ⟨page.modulesContainer,
          some ((page.svgLinks.getD []).filter (fun s => (decodeLink s).isSome))⟩) ∧
    (∀ (container : List ModuleNode) (links : Option (List String)),
      (getProgramState ⟨some container, links⟩).map ModuleState.id =
        (container.filter (fun n => n.id != "")).map ModuleNode.id) ∧
    (∀ container : List ModuleNode,
      ∃ doc, extractProgramState ⟨some container, none⟩ = some doc ∧ doc.links = []) ∧
    (∀ n : ModuleNode, n.dataTop = none → n.dataLeft = none →
      (extractEntry n).top = "0" ∧ (extractEntry n).left = "0") := by
  refine ⟨?_, ?_, ?_, ?_⟩
  · intro page
    have hconns : linkConns ((page.svgLinks.getD []).filter
        (fun s => (decodeLink s).isSome)) = linkConns (page.svgLinks.getD []) := by
      unfold linkConns
      refine filterMap_filter_of_none _ _ ?_ _
      intro a ha
      by_cases he : a = ""
      · rw [if_pos he]
      · rw [if_neg he]
        simpa using ha
    unfold getProgramState
    simp only [Option.getD_some]
    rw [hconns]
  · intro container links
    unfold getProgramState
    simp only []
    exact getProgramState_ids container _ container
  · intro container
    exact ⟨_, rfl, rfl⟩
  · intro n htop hleft
    unfold extractEntry
    rw [htop, hleft]
    exact ⟨rfl, rfl⟩

set_option maxRecDepth 4000 in
/-- C7 witness: a malformed overlay entry (`###`) and an empty falsy entry are
skipped without affecting the rest of the read, and a module lacking layout
attributes decodes with `top = left = "0"` and empty `links`. -/
theorem decode_localRecovery_witness :
    getProgramState ⟨some [⟨"0.1", some "mod", none, none, none, none, [], []⟩],
        some ["###", encodeLinkStr "0.1" (some "out") "0.2" (some "inp"), ""]⟩ =
      getProgramState ⟨some [⟨"0.1", some "mod", none, none, none, none, [], []⟩],
        some [encodeLinkStr "0.1" (some "out") "0.2" (some "inp")]⟩ ∧
    (getProgramState ⟨some [⟨"0.1", some "mod", none, none, none, none, [], []⟩],
        some ["###", encodeLinkStr "0.1" (some "out") "0.2" (some "inp"), ""]⟩).map
      ModuleState.id = ["0.1"] ∧
    extractProgramState ⟨some [⟨"0.1", some "mod", none, none, none, none, [], []⟩],
        none⟩ =
      some ⟨[("0.1", ⟨"", "0", "0", "", [], []⟩)], []⟩ ∧
    (extractEntry ⟨"0.1", some "mod", none, none, none, none, [], []⟩).top = "0" := by
  have h := decode_localRecovery
  refine ⟨?_, ?_, by decide, (h.2.2.2 ⟨"0.1", some "mod", none, none, none, none, [], []⟩
    rfl rfl).1⟩
  · have ha := h.1 ⟨some [⟨"0.1", some "mod", none, none, none, none, [], []⟩],
      some ["###", encodeLinkStr "0.1" (some "out") "0.2" (some "inp"), ""]⟩
    rw [ha]
    have hf : (["###", encodeLinkStr "0.1" (some "out") "0.2" (some "inp"), ""].filter
        (fun s => (decodeLink s).isSome)) =
        [encodeLinkStr "0.1" (some "out") "0.2" (some "inp")] := by decide
    rw [show ((⟨some [⟨"0.1", some "mod", none, none, none, none, [], []⟩],
      some ["###", encodeLinkStr "0.1" (some "out") "0.2" (some "inp"), ""]⟩ : Page)).modulesContainer =
      some [⟨"0.1", some "mod", none, none, none, none, [], []⟩] from rfl]
    rw [show ((⟨some [⟨"0.1", some "mod", none, none, none, none, [], []⟩],
      some ["###", encodeLinkStr "0.1" (some "out") "0.2" (some "inp"), ""]⟩ : Page)).svgLinks.getD [] =
      ["###", encodeLinkStr "0.1" (some "out") "0.2" (some "inp"), ""] from rfl]
    rw [hf]
  · have hb := h.2.1 [⟨"0.1", some "mod", none, none, none, none, [], []⟩]
      (some ["###", encodeLinkStr "0.1" (some "out") "0.2" (some "inp"), ""])
    rw [hb]
    decide

end ModsMcp
